import Mathlib

/-!
# Verification of the ai_plotter pipeline core

Shallow embedding of the repository's core modules and proofs of the
specification claims about them:

* `services/plotter.py` — serial device link: acknowledgment matching,
  per-line retry, streaming of G-code lines (`_wait_for_ack`,
  `_send_line_and_wait`, `PlotterController.send_gcode_lines`).
* `services/queue.py` — job bookkeeping: `cancel_job`,
  `_signal_plotter_cancel`, `_init_print_progress`, `_update_print_progress`.
* `services/vectorizer.py` — `_rdp`, `_downsample`, `vectorize_image`,
  `crop_and_scale_vector_data`, `save_vector_data`.
* `services/gcode.py` — `_filter_min_move`, `_distance`, `_path_length`,
  `_simplify_path_rdp`, `vector_data_to_gcode`, `image_to_gcode`.

Python floats are embedded as exact rationals (`ℚ`); quantities that the
source derives with `math.hypot`/`np.sqrt` (Euclidean lengths) live in `ℝ`.
Machine integers are embedded as `Int`/`Nat`.  Fallible code returns
`Option`/`Except`; `Option` results of recursive code use `none` for inputs
on which the Python recursion does not terminate.
-/

/-! ## Python string primitives

Faithful models of the Python `str` operations the plotter module uses.
Python's `str.strip()` family strips the six ASCII whitespace characters.
-/

/-- The characters Python's `str.strip()`/`str.rstrip()` treat as whitespace. -/
def isPySpace (c : Char) : Bool :=
  c = ' ' || c = '\t' || c = '\n' || c = '\r' || c = '\x0b' || c = '\x0c'

/-- Python `s.rstrip("\r\n")`: drop trailing carriage returns / line feeds. -/
def pyRstripCRLF (s : String) : String :=
  ((s.toList.reverse.dropWhile fun c => c = '\r' || c = '\n').reverse).asString

/-- Python `s.rstrip()`: drop trailing whitespace. -/
def pyRstrip (s : String) : String :=
  (s.toList.reverse.dropWhile isPySpace).reverse.asString

/-- Python `s.strip()`: drop leading and trailing whitespace. -/
def pyStrip (s : String) : String :=
  (((s.toList.dropWhile isPySpace).reverse.dropWhile isPySpace).reverse).asString

/-- Python `s.lower()` (ASCII case folding, as used for ack matching). -/
def lowerStr (s : String) : String :=
  (s.toList.map Char.toLower).asString

/-- `listInfix needle hay`: `needle` occurs as a contiguous run in `hay`. -/
def listInfix (needle : List Char) : List Char → Bool
  | [] => needle.isEmpty
  | c :: rest => needle.isPrefixOf (c :: rest) || listInfix needle rest

/-- Python `needle in hay` on strings (contiguous substring test). -/
def pyIn (needle hay : String) : Bool :=
  listInfix needle.toList hay.toList

/-! ## `services/plotter.py`

The serial device is modeled by the lines it delivers during each
acknowledgment-wait window: `device idx attempt` is the list of response
lines that arrive while the controller waits for the acknowledgment of line
`idx` (1-based) during attempt `attempt` (1-based).  `ser.write`/`flush`
always succeed in this model (the claims concern stub devices, not write
failures), and timing is abstracted into the finite response list: a window
whose lines never match the acknowledgment is exactly a timeout.
-/

/-- `_wait_for_ack` (plotter.py:27-63): scan the lines received within the
timeout window for one containing the acknowledgment substring,
case-insensitively, after stripping; return it stripped, or `none` on
timeout.  There is no other exit: no response line is treated specially. -/
def wait_for_ack (received : List String) (ack : String) : Option String :=
  let ackLc := lowerStr (pyStrip ack)
  received.findSome? fun line =>
    let txt := pyStrip line
    if pyIn ackLc (lowerStr txt) then some txt else none

/-- Result of `_send_line_and_wait`: whether an acknowledgment arrived, and
how many send-and-wait attempts were executed (each attempt performs exactly
one acknowledgment wait). -/
structure AttemptResult where
  success : Bool
  attempts : Nat
deriving DecidableEq

/-- The `while attempt <= retries` loop of `_send_line_and_wait`
(plotter.py:83-106), with `fuel = retries + 1` iterations remaining and
`attempt` the 1-based number of the next attempt. -/
def send_attempt_loop (device : Nat → List String) (ack : String) (attempt : Nat) :
    Nat → AttemptResult
  | 0 => ⟨false, 0⟩
  | fuel + 1 =>
    if (wait_for_ack (device attempt) ack).isSome then ⟨true, 1⟩
    else
      let r := send_attempt_loop device ack (attempt + 1) fuel
      ⟨r.success, r.attempts + 1⟩

/-- `_send_line_and_wait` (plotter.py:66-111): up to `retries + 1` attempts,
each writing the line and waiting once for the acknowledgment. -/
def send_line_and_wait (device : Nat → List String) (ack : String) (retries : Nat) :
    AttemptResult :=
  send_attempt_loop device ack 1 (retries + 1)

/-- The failure payload of the `PlotterError` raised by `send_gcode_lines`:
the 1-based index of the offending line and its content (`line.rstrip()`). -/
structure LineFailure where
  lineIdx : Nat
  content : String
deriving DecidableEq

/-- Outcome of streaming: `failure = none` means every line was
acknowledged; `waits` counts acknowledgment waits, `retriesUsed` counts
attempts beyond the first for each line. -/
structure SendOutcome where
  failure : Option LineFailure
  waits : Nat
  retriesUsed : Nat
deriving DecidableEq

/-- The `for idx, raw_line in enumerate(lines, start=1)` loop of
`send_gcode_lines` (plotter.py:199-219).  Blank lines are skipped (but still
consume an index); each other line is sent with `_send_line_and_wait`, and
the first unacknowledged line aborts the stream with its 1-based index and
`line.rstrip()` content.  `_cancel_requested` is reset to `False` on entry
and nothing in this call path sets it, so the cancellation check never
fires in this model. -/
def send_gcode_lines_loop (device : Nat → Nat → List String) (ack : String)
    (retries : Nat) : Nat → List String → SendOutcome
  | _, [] => ⟨none, 0, 0⟩
  | idx, raw :: rest =>
    let line := pyRstripCRLF raw ++ "\n"
    if (line.toList.all isPySpace) then
      send_gcode_lines_loop device ack retries (idx + 1) rest
    else
      let r := send_line_and_wait (device idx) ack retries
      if r.success then
        let o := send_gcode_lines_loop device ack retries (idx + 1) rest
        ⟨o.failure, r.attempts + o.waits, (r.attempts - 1) + o.retriesUsed⟩
      else ⟨some ⟨idx, pyRstrip line⟩, r.attempts, r.attempts - 1⟩

/-- `PlotterController.send_gcode_lines` (plotter.py:193-219). -/
def send_gcode_lines (device : Nat → Nat → List String) (ack : String)
    (retries : Nat) (lines : List String) : SendOutcome :=
  send_gcode_lines_loop device ack retries 1 lines

/-- Stub device that immediately acknowledges every line on every attempt. -/
def ackAlways : Nat → Nat → List String := fun _ _ => ["ok"]

/-- Stub device that never sends anything back (every wait times out). -/
def ackNever : Nat → Nat → List String := fun _ _ => []

/-- Stub device that answers every wait window with an error-marker line. -/
def errDevice : Nat → Nat → List String := fun _ _ => ["error:9 probe fail"]

/-! ## `services/queue.py` — print-progress bookkeeping and cancellation

The job record is reduced to the parts the claims are about: the status
string, the `print_progress` entry of the metadata map, and the
process-wide `_plotter_state`.  A metadata entry that may be absent is an
`Option`; the `print_progress` dict itself may lack the `total_lines` key,
so that field is also an `Option`.  Timestamps are not modeled.
-/

/-- The `JobStatus` enum (queue.py:30-40). -/
inductive JobStatus
  | submitted | generating | generated | confirmed | approved
  | queued | printing | completed | failed | cancelled
deriving DecidableEq

/-- The `print_progress` metadata dict (minus the `updated_at` timestamp).
`total_lines` is `none` when the dict lacks that key. -/
structure PP where
  total_lines : Option Int
  current_line : Option Int
deriving DecidableEq

/-- `_init_print_progress` (queue.py:154-164): store
`{"total_lines": max(0, total), "current_line": 0}`. -/
def init_print_progress (total_lines : Int) : PP :=
  ⟨some (max 0 total_lines), some 0⟩

/-- `_update_print_progress` (queue.py:167-188).  `stored` is the current
`print_progress` entry (`none` when absent; Python replaces a missing/falsy
entry with `{}`).  The `or`-chain
`existing_total = progress.get("total_lines") or total_lines or 0` takes the
first truthy value, where both `None` and `0` are falsy and the *raw*
argument (possibly negative) is used; `current_line` is clamped to
`[0, existing_total]` only when `existing_total` is truthy. -/
def update_print_progress (stored : Option PP) (current_line : Int)
    (total_lines : Option Int) : PP :=
  let progress := stored.getD ⟨none, none⟩
  let progress :=
    match total_lines with
    | some t => { progress with total_lines := some (max 0 t) }
    | none => progress
  let existing_total : Int :=
    match progress.total_lines with
    | some t =>
      if t ≠ 0 then t else
        match total_lines with
        | some t2 => if t2 ≠ 0 then t2 else 0
        | none => 0
    | none =>
      match total_lines with
      | some t2 => if t2 ≠ 0 then t2 else 0
      | none => 0
  let safe_current : Int :=
    max 0 (if existing_total ≠ 0 then min current_line existing_total else current_line)
  { progress with current_line := some safe_current }

/-- The active plotter controller, reduced to its cancellation flag
(`PlotterController._cancel_requested`, set by `request_cancel`). -/
structure ControllerSt where
  cancel_requested : Bool
deriving DecidableEq

/-- `_PlotterState` (queue.py:668-671): the process-wide reference to the
currently streaming controller plus the rehome-on-unwind flag. -/
structure PlotterSt where
  controller : Option ControllerSt
  should_rehome_on_cancel : Bool
deriving DecidableEq

/-- The state `cancel_job` reads and writes: job status, the job's
`print_progress` metadata, and the process-wide plotter state. -/
structure QueueSt where
  status : JobStatus
  print_progress : Option PP
  plotter : PlotterSt
deriving DecidableEq

/-- `_signal_plotter_cancel` (queue.py:658-663): if a controller is active,
set the rehome-on-unwind flag and request cancellation on it. -/
def signal_plotter_cancel (ps : PlotterSt) : PlotterSt :=
  match ps.controller with
  | some c => ⟨some { c with cancel_requested := true }, true⟩
  | none => ps

/-- `_clear_print_progress` (queue.py:191-197): pop the entry. -/
def clear_print_progress (_pp : Option PP) : Option PP := none

/-- `cancel_job` (queue.py:647-655). -/
def cancel_job (s : QueueSt) : QueueSt :=
  if s.status = JobStatus.completed ∨ s.status = JobStatus.cancelled then s
  else
    { s with
      status := JobStatus.cancelled
      plotter := signal_plotter_cancel s.plotter
      print_progress := clear_print_progress s.print_progress }

/-! ## `services/vectorizer.py`

Points are embedded as exact rationals.  `vectorize_image` consumes the
contour list produced by the external collaborator
`skimage.measure.find_contours(mask, 0.5)`, so the embedded function takes
those contours (in skimage's `(row, col)` order) as an argument; the
binarization `pixel_intensity < threshold` and the tracing itself happen in
that external library.  A mask with no ink pixels yields the empty contour
list.  `_rdp` is embedded with `Option`: `none` marks the inputs on which
the Python recursion never terminates (it calls itself on an identical
argument, which in CPython surfaces as a `RecursionError`).
-/

/-- A 2-D point with exact rational coordinates. -/
abbrev Pt := ℚ × ℚ

/-- Squared Euclidean distance between two points. -/
def sqDist (p q : Pt) : ℚ := (q.1 - p.1) ^ 2 + (q.2 - p.2) ^ 2

/-- `np.argmax` inner loop: first index attaining the maximum (strictly
greater values update the running best). -/
def argmaxAux : List ℚ → Nat → Nat → ℚ → Nat
  | [], _, best, _ => best
  | x :: xs, i, best, bestVal =>
    if bestVal < x then argmaxAux xs (i + 1) i x
    else argmaxAux xs (i + 1) best bestVal

/-- `np.argmax`: index of the first maximal element (0 on the empty list). -/
def argmaxFirst : List ℚ → Nat
  | [] => 0
  | x :: xs => argmaxAux xs 1 0 x

/-- `_rdp` (vectorizer.py:26-46).  Distances are compared through their
squares, which is exact here: the guard guarantees `epsilon > 0`, all
distances are nonnegative, and in the non-degenerate branch
`|cross|/‖line‖ ≤ ε ↔ cross² ≤ ε²·‖line‖²`; squaring also preserves
`np.argmax`'s first-maximum choice.  `np.allclose(line, 0)` is the
componentwise absolute comparison against `atol = 1e-8`.  The recursive
split keeps exactly the source's indices; when the split does not shrink
the list (the first-to-last chord is within the `allclose` tolerance but
the farthest point is the final one), the Python call recurses on an
identical argument and never returns, which is `none` here. -/
def rdpDists (points : List Pt) (epsilon : ℚ) : List ℚ × ℚ :=
  let start := points.headI
  let stop := points.getLastD start
  let lx := stop.1 - start.1
  let ly := stop.2 - start.2
  if |lx| ≤ (1 : ℚ) / 100000000 ∧ |ly| ≤ (1 : ℚ) / 100000000 then
    (points.map (fun p => sqDist start p), epsilon ^ 2)
  else
    (points.map (fun p => (lx * (p.2 - start.2) - ly * (p.1 - start.1)) ^ 2),
     epsilon ^ 2 * (lx ^ 2 + ly ^ 2))

/-- The split index of `_rdp`: `np.argmax` of the distance array. -/
def rdpIdx (points : List Pt) (epsilon : ℚ) : Nat :=
  argmaxFirst (rdpDists points epsilon).1

def rdpFuel : Nat → List Pt → ℚ → Option (List Pt)
  | fuel, points, epsilon =>
    if points.length < 3 ∨ epsilon ≤ 0 then some points
    else
      let ds := rdpDists points epsilon
      let idx := rdpIdx points epsilon
      if (ds.1).getD idx 0 ≤ ds.2 then some [points.headI, points.getLastD points.headI]
      else if 1 ≤ idx ∧ idx + 1 < points.length then
        match fuel with
        | 0 => none
        | fuel' + 1 => do
          let fh ← rdpFuel fuel' (points.take (idx + 1)) epsilon
          let sh ← rdpFuel fuel' (points.drop idx) epsilon
          some (fh.dropLast ++ sh)
      else none

/-- `_rdp` proper: every recursive call strictly shrinks the list whenever
the split-index guard holds, so `points.length` units of fuel can never be
exhausted; `none` therefore arises exactly from the guard failing, i.e.
from the Python non-termination described above. -/
def rdp (points : List Pt) (epsilon : ℚ) : Option (List Pt) :=
  rdpFuel points.length points epsilon

/-- Python `lst[::step]` for a positive stride. -/
def pyStride (l : List Pt) (step : Nat) : List Pt :=
  (l.enum.filter fun p => p.1 % step = 0).map Prod.snd

/-- `_downsample` (vectorizer.py:49-52). -/
def downsample (points : List Pt) (step : Nat) : List Pt :=
  if step ≤ 1 then points else pyStride points step

/-- `VectorData` (vectorizer.py:17-23). -/
structure VectorData where
  width : Int
  height : Int
  paths : List (List Pt)
deriving DecidableEq

/-- The `for contour in contours` loop of `vectorize_image`
(vectorizer.py:74-82): drop contours shorter than `min_path_points`,
convert `(row, col)` to `(x, y)`, simplify, downsample, and drop results
shorter than `min_path_points // 2`. -/
def vectorize_paths (tol : ℚ) (minPts step : Nat) :
    List (List Pt) → Option (List (List Pt))
  | [] => some []
  | contour :: rest =>
    if contour.length < minPts then vectorize_paths tol minPts step rest
    else do
      let simplified ← rdp (contour.map fun rc => (rc.2, rc.1)) tol
      let simplified := downsample simplified step
      let tail ← vectorize_paths tol minPts step rest
      if simplified.length < minPts / 2 then some tail else some (simplified :: tail)

/-- `vectorize_image` (vectorizer.py:55-84), with the external
`find_contours` output supplied as `contours`.  Note the body contains no
`raise`: whatever survives filtering — including nothing at all — is
returned as the `paths` of a `VectorData`. -/
def vectorize_image (width height : Int) (contours : List (List Pt))
    (tol : ℚ) (minPts step : Nat) : Option VectorData :=
  (vectorize_paths tol minPts step contours).map fun ps => ⟨width, height, ps⟩

/-- Python 3 `round` (banker's rounding, half to even) on an exact rational,
composed with `int(...)` as in `int(round(x))`. -/
def pyRound (q : ℚ) : Int :=
  let f := ⌊q⌋
  let r := q - f
  if r < 1 / 2 then f
  else if 1 / 2 < r then f + 1
  else if 2 ∣ f then f else f + 1

/-- `min` over a list as Python computes it (never called on `[]`). -/
def listMinQ : List ℚ → ℚ
  | [] => 0
  | x :: xs => xs.foldl min x

/-- `max` over a list as Python computes it (never called on `[]`). -/
def listMaxQ : List ℚ → ℚ
  | [] => 0
  | x :: xs => xs.foldl max x

/-- The flattened point list of a `VectorData` (the points the `for path
... for x, y` loops of `crop_and_scale_vector_data` collect). -/
def vdPoints (data : VectorData) : List Pt := data.paths.flatten

/-- `all_x` (vectorizer.py:98-103). -/
def vdXs (data : VectorData) : List ℚ := (vdPoints data).map Prod.fst

/-- `all_y` (vectorizer.py:98-103). -/
def vdYs (data : VectorData) : List ℚ := (vdPoints data).map Prod.snd

def vdMinX (data : VectorData) : ℚ := listMinQ (vdXs data)

def vdMaxX (data : VectorData) : ℚ := listMaxQ (vdXs data)

def vdMinY (data : VectorData) : ℚ := listMinQ (vdYs data)

def vdMaxY (data : VectorData) : ℚ := listMaxQ (vdYs data)

/-- `pad = max(content_width, content_height) * max(0.0, padding_ratio)`. -/
def vdPad (data : VectorData) (padFrac : ℚ) : ℚ :=
  max (vdMaxX data - vdMinX data) (vdMaxY data - vdMinY data) * max 0 padFrac

def cropMinX (data : VectorData) (padFrac : ℚ) : ℚ :=
  max (vdMinX data - vdPad data padFrac) 0

def cropMinY (data : VectorData) (padFrac : ℚ) : ℚ :=
  max (vdMinY data - vdPad data padFrac) 0

def cropMaxX (data : VectorData) (padFrac : ℚ) : ℚ :=
  min (vdMaxX data + vdPad data padFrac) (data.width : ℚ)

def cropMaxY (data : VectorData) (padFrac : ℚ) : ℚ :=
  min (vdMaxY data + vdPad data padFrac) (data.height : ℚ)

def newWidth (data : VectorData) (padFrac : ℚ) : ℚ :=
  cropMaxX data padFrac - cropMinX data padFrac

def newHeight (data : VectorData) (padFrac : ℚ) : ℚ :=
  cropMaxY data padFrac - cropMinY data padFrac

/-- `target = target_dimension or max(data.width, data.height)`; `None`
and `0` are both falsy, and `None` is embedded as `0`. -/
def cropTarget (data : VectorData) (targetDim : Int) : Int :=
  if targetDim ≠ 0 then targetDim else max data.width data.height

/-- `scale`: `target / max_extent` when `target` is truthy and the extent
positive, else the initial `1.0`. -/
def cropScale (data : VectorData) (padFrac : ℚ) (targetDim : Int) : ℚ :=
  if cropTarget data targetDim ≠ 0 ∧ 0 < max (newWidth data padFrac) (newHeight data padFrac)
  then (cropTarget data targetDim : ℚ) / max (newWidth data padFrac) (newHeight data padFrac)
  else 1

/-- The body of `crop_and_scale_vector_data` (vectorizer.py:87-146) with
every early `return data` mapped to `none`.  `padFrac` is the source's
`padding_ratio` argument and `targetDim` its `target_dimension`, with
`None` embedded as `0` (both are falsy in `target_dimension or ...`).
The intermediate quantities are the named definitions above, one per
local variable of the source. -/
def crop_scale_core (data : VectorData) (padFrac : ℚ) (targetDim : Int) :
    Option VectorData :=
  if data.paths = [] then none
  else if vdXs data = [] ∨ vdYs data = [] then none
  else if vdMaxX data - vdMinX data ≤ 0 ∨ vdMaxY data - vdMinY data ≤ 0 then none
  else if newWidth data padFrac ≤ 0 ∨ newHeight data padFrac ≤ 0 then none
  else
    some ⟨max 1 (pyRound (newWidth data padFrac * cropScale data padFrac targetDim)),
          max 1 (pyRound (newHeight data padFrac * cropScale data padFrac targetDim)),
          data.paths.map fun path => path.map fun p =>
            ((p.1 - cropMinX data padFrac) * cropScale data padFrac targetDim,
             (p.2 - cropMinY data padFrac) * cropScale data padFrac targetDim)⟩

/-- `crop_and_scale_vector_data` (vectorizer.py:87-146). -/
def crop_and_scale_vector_data (data : VectorData) (padFrac : ℚ) (targetDim : Int) :
    VectorData :=
  (crop_scale_core data padFrac targetDim).getD data

/-- The JSON payload written by `save_vector_data` (vectorizer.py:149-157). -/
structure VectorPayload where
  width : Int
  height : Int
  paths : List (List Pt)
deriving DecidableEq

/-- `save_vector_data` persists width, height and the paths verbatim. -/
def save_vector_data (data : VectorData) : VectorPayload :=
  ⟨data.width, data.height, data.paths⟩

/-! ## `services/gcode.py`

Command lines are embedded as structured data rather than formatted text
(the two-decimal text formatting is irrelevant to the claims; the stats are
computed from the unformatted values in the source as well).  Euclidean
lengths (`math.hypot`) live in `ℝ`.
-/

/-- `GCodeSettings` (gcode.py:20-36). -/
structure GCodeSettings where
  pixel_size_mm : ℚ
  feed_rate : Int
  travel_height : ℚ
  draw_height : ℚ
  invert_z : Bool
  threshold : Int
  blur_radius : ℚ
  thinning_iterations : Nat
  point_skip : Nat
  min_move_mm : ℚ
  simplification_error : ℚ
  smoothing_iterations : Nat
  pen_dwell_seconds : ℚ

/-- The dataclass defaults of `GCodeSettings`. -/
def defaultSettings : GCodeSettings :=
  ⟨1/4, 10000, 5, 0, false, 200, 3/2, 20, 1, 1/4, 1/10, 2, 0⟩

/-- One emitted plotter command line. -/
inductive Cmd
  | rapidMove (x y : ℚ)
  | setFeed (f : Int)
  | penDown
  | dwell (seconds : ℚ)
  | lineTo (x y : ℚ)
  | penUp
deriving DecidableEq

/-- The `for x, y in points[1:]` loop of `_filter_min_move`
(gcode.py:456-464): drop a point closer than `min_dist` to the last kept
point. -/
def filter_min_move_aux (minDist : ℚ) : Pt → List Pt → List Pt
  | _, [] => []
  | lastKept, p :: ps =>
    if (p.1 - lastKept.1) * (p.1 - lastKept.1) + (p.2 - lastKept.2) * (p.2 - lastKept.2)
        < minDist * minDist then
      filter_min_move_aux minDist lastKept ps
    else p :: filter_min_move_aux minDist p ps

/-- `_filter_min_move` (gcode.py:452-467): keep the first point, drop
too-close successors, and re-append the original last point if filtering
dropped it. -/
def filter_min_move (points : List Pt) (minDist : ℚ) : List Pt :=
  match points with
  | [] => []
  | p0 :: ps =>
    if minDist ≤ 0 then p0 :: ps
    else
      let filtered := p0 :: filter_min_move_aux minDist p0 ps
      let lastPt := (p0 :: ps).getLastD p0
      if filtered.getLastD p0 ≠ lastPt then filtered ++ [lastPt] else filtered

/-- `_distance` (gcode.py:433-434): `math.hypot` of the coordinate deltas. -/
noncomputable def pyDist (p q : Pt) : ℝ :=
  Real.sqrt ((sqDist p q : ℚ) : ℝ)

/-- `_path_length` (gcode.py:437-440): sum of consecutive distances. -/
noncomputable def path_length (points : List Pt) : ℝ :=
  ((points.zip points.tail).map fun pq => pyDist pq.1 pq.2).sum

/-- Accumulator of the `for path in vector_data.paths` loop of
`vector_data_to_gcode` (gcode.py:158-191). -/
structure EmitSt where
  cmds : List Cmd
  total_draw : ℝ
  total_travel : ℝ
  line_count : Nat
  path_count : Nat
  prev_endpoint : Option Pt

/-- The inline raster-to-physical conversion of `vector_data_to_gcode`
(gcode.py:162-165): `x_mm = x·pixel`, `y_mm = (height − y − 1)·pixel`. -/
def mm_points (height : Int) (pixel : ℚ) (path : List Pt) : List Pt :=
  path.map fun p => (p.1 * pixel, ((height : ℚ) - p.2 - 1) * pixel)

/-- One iteration of the path loop of `vector_data_to_gcode`:
skip paths shorter than 2 points, convert to physical units, filter minimum
moves, skip again if fewer than 2 points remain, then accumulate
travel/draw distances and emit the command block. -/
noncomputable def emit_path (settings : GCodeSettings) (height : Int)
    (st : EmitSt) (path : List Pt) : EmitSt :=
  if path.length < 2 then st
  else
    let mm0 := mm_points height settings.pixel_size_mm path
    let mm := filter_min_move mm0 settings.min_move_mm
    if mm.length < 2 then st
    else
      let start := mm.headI
      let travel_start := st.prev_endpoint.getD (0, 0)
      let dwellCmds := if 0 < settings.pen_dwell_seconds then
          [Cmd.dwell settings.pen_dwell_seconds] else []
      { cmds := st.cmds
          ++ [Cmd.rapidMove start.1 start.2, Cmd.setFeed settings.feed_rate, Cmd.penDown]
          ++ dwellCmds ++ (mm.map fun p => Cmd.lineTo p.1 p.2) ++ [Cmd.penUp] ++ dwellCmds
        total_draw := st.total_draw + path_length mm
        total_travel := st.total_travel + pyDist travel_start start
        line_count := st.line_count + mm.length
        path_count := st.path_count + 1
        prev_endpoint := some (mm.getLastD start) }

/-- `GCodeStats` (gcode.py:39-47). -/
structure GCodeStats where
  total_draw_mm : ℝ
  total_travel_mm : ℝ
  estimated_seconds : ℝ
  path_count : Nat
  line_count : Nat

/-- `vector_data_to_gcode` (gcode.py:135-222).  The returned command list is
the file content written at gcode.py:208; every `Except.error` is raised
before that write, so an error value means nothing was written. -/
noncomputable def vector_data_to_gcode (v : VectorData) (settings : GCodeSettings) :
    Except String (List Cmd × GCodeStats) :=
  if settings.feed_rate ≤ 0 then Except.error "Feed rate must be a positive value."
  else if v.paths = [] then
    Except.error "Vector data did not contain any drawable paths."
  else if v.width ≤ 0 ∨ v.height ≤ 0 then
    Except.error "Vector data has invalid dimensions."
  else
    let st := v.paths.foldl (emit_path settings v.height) ⟨[], 0, 0, 0, 0, none⟩
    if st.cmds = [] then Except.error "Vector data did not produce drawable paths."
    else
      let total_travel : ℝ :=
        match st.prev_endpoint with
        | some p => st.total_travel + pyDist p (0, 0)
        | none => st.total_travel
      let cmds := st.cmds ++ [Cmd.rapidMove 0 0, Cmd.dwell 2, Cmd.penUp]
      let feed : ℝ := ((max settings.feed_rate 1 : Int) : ℝ)
      let minutes := st.total_draw / feed + total_travel / feed
      let dwell_seconds := (st.path_count : ℝ) * ((settings.pen_dwell_seconds : ℚ) : ℝ) * 2
      let est := max minutes 0 * 60 + dwell_seconds + 5
      Except.ok (cmds, ⟨st.total_draw, total_travel, est, st.path_count, st.line_count⟩)

/-- `image_to_gcode` (gcode.py:55-132).  `rest` abstracts everything from
`Image.open` onward (blur, thresholding, thinning, tracing, emission, and
the file write): all of it runs only after `_validate_feed_rate` and the
existence check succeed, which is the part the claims are about. -/
def image_to_gcode (settings : GCodeSettings) (imageExists : Bool)
    (rest : GCodeSettings → Except String (List Cmd)) : Except String (List Cmd) :=
  if settings.feed_rate ≤ 0 then Except.error "Feed rate must be a positive value."
  else if !imageExists then Except.error "Image does not exist."
  else rest settings

/-- The interior scan of `_simplify_path_rdp` (gcode.py:364-397): Python
iterates `i ∈ range(1, end)` with `dmax = 0.0`, `index = 0`, updating on
strictly larger distances; distances here are the squared values. -/
def interiorArgmaxAux : List ℚ → Nat → Nat → ℚ → Nat × ℚ
  | [], _, bi, bv => (bi, bv)
  | d :: ds, i, bi, bv =>
    if bv < d then interiorArgmaxAux ds (i + 1) i d
    else interiorArgmaxAux ds (i + 1) bi bv

/-- `_simplify_path_rdp` (gcode.py:358-405).  The degenerate test here is
the exact `line_len_sq == 0`; distances are compared through squares, with
`d > ε` for negative `ε` handled separately (it is always true).  As with
`rdp`, a split that does not shrink the list means the Python recursion
never returns, embedded as `none`; with `ε > 0` this cannot happen. -/
def simplifyLineLenSq (points : List Pt) : ℚ :=
  let p1 := points.headI
  let p2 := points.getLastD p1
  (p2.1 - p1.1) * (p2.1 - p1.1) + (p2.2 - p1.2) * (p2.2 - p1.2)

/-- The squared distance array of `_simplify_path_rdp`'s interior scan. -/
def simplifyDists (points : List Pt) : List ℚ :=
  let p1 := points.headI
  let p2 := points.getLastD p1
  let dx := p2.1 - p1.1
  let dy := p2.2 - p1.2
  let interior := (points.drop 1).dropLast
  if simplifyLineLenSq points = 0 then interior.map fun p => sqDist p1 p
  else interior.map fun p => (dy * p.1 - dx * p.2 + p2.1 * p1.2 - p2.2 * p1.1) ^ 2

/-- The `(index, dmax)` pair computed by `_simplify_path_rdp`'s scan. -/
def simplifyIm (points : List Pt) : Nat × ℚ :=
  interiorArgmaxAux (simplifyDists points) 1 0 0

/-- The `dmax > epsilon` test of `_simplify_path_rdp`, on squared values:
for `ε ≥ 0` and `d ≥ 0`, `d > ε ↔ d² > ε²` (scaled by `line_len_sq` in the
non-degenerate branch, where `d = |num|/√line_len_sq`); for `ε < 0` the
test is always true since distances are nonnegative. -/
def simplifyExceeds (points : List Pt) (epsilon : ℚ) : Bool :=
  if epsilon < 0 then true
  else decide (epsilon ^ 2 * (if simplifyLineLenSq points = 0 then 1
    else simplifyLineLenSq points) < (simplifyIm points).2)

def simplifyFuel : Nat → List Pt → ℚ → Option (List Pt)
  | fuel, points, epsilon =>
    if points.length < 3 then some points
    else if simplifyExceeds points epsilon then
      if 1 ≤ (simplifyIm points).1 ∧ (simplifyIm points).1 + 1 < points.length then
        match fuel with
        | 0 => none
        | fuel' + 1 => do
          let r1 ← simplifyFuel fuel' (points.take ((simplifyIm points).1 + 1)) epsilon
          let r2 ← simplifyFuel fuel' (points.drop (simplifyIm points).1) epsilon
          some (r1.dropLast ++ r2)
      else none
    else some [points.headI, points.getLastD points.headI]

/-- `_simplify_path_rdp` proper; as with `rdp`, `points.length` units of
fuel can never be exhausted, and `none` marks the Python non-termination
(only reachable when `epsilon < 0`). -/
def simplify_path_rdp (points : List Pt) (epsilon : ℚ) : Option (List Pt) :=
  simplifyFuel points.length points epsilon

/-! ## Protocol lemmas for the device link -/

/-- A wait window none of whose lines contains the acknowledgment substring
is a timeout. -/
theorem wait_for_ack_none (received : List String) (ack : String)
    (h : ∀ t ∈ received, pyIn (lowerStr (pyStrip ack)) (lowerStr (pyStrip t)) = false) :
    wait_for_ack received ack = none := by
  induction received with
  | nil => rfl
  | cons t rest ih =>
    have ht := h t (List.mem_cons_self t rest)
    have hrest : ∀ u ∈ rest, pyIn (lowerStr (pyStrip ack)) (lowerStr (pyStrip u)) = false :=
      fun u hu => h u (List.mem_cons_of_mem t hu)
    simp only [wait_for_ack, List.findSome?] at ih ⊢
    simp [ht, ih hrest]

/-- If every wait in the window sequence times out, the attempt loop runs
out of fuel, having used one wait per unit of fuel. -/
theorem send_attempt_loop_all_timeout (device : Nat → List String) (ack : String)
    (h : ∀ a, wait_for_ack (device a) ack = none) :
    ∀ fuel attempt, send_attempt_loop device ack attempt fuel = ⟨false, fuel⟩ := by
  intro fuel
  induction fuel with
  | zero => intro attempt; rfl
  | succ n ih =>
    intro attempt
    simp [send_attempt_loop, h attempt, ih (attempt + 1)]

/-- If the first line is not blank and every wait window for it times out,
the stream fails on line 1 after `retries + 1` attempts. -/
theorem send_first_line_fails (device : Nat → Nat → List String) (ack : String)
    (retries : Nat) (raw : String) (rest : List String)
    (hto : ∀ a, wait_for_ack (device 1 a) ack = none)
    (hnb : ((pyRstripCRLF raw ++ "\n").toList.all isPySpace) = false) :
    send_gcode_lines device ack retries (raw :: rest)
      = ⟨some ⟨1, pyRstrip (pyRstripCRLF raw ++ "\n")⟩, retries + 1, retries⟩ := by
  have hfail : send_line_and_wait (device 1) ack retries = ⟨false, retries + 1⟩ :=
    send_attempt_loop_all_timeout (device 1) ack hto (retries + 1) 1
  rw [send_gcode_lines, send_gcode_lines_loop]
  simp only [hnb, Bool.false_eq_true, if_false, hfail, Nat.add_sub_cancel]

/-- The always-acknowledging stub acknowledges in a single attempt. -/
theorem send_line_and_wait_ackAlways (idx retries : Nat) :
    send_line_and_wait (ackAlways idx) "ok" retries = ⟨true, 1⟩ := by
  have hws : (wait_for_ack ["ok"] "ok").isSome = true := by decide
  simp [send_line_and_wait, send_attempt_loop, ackAlways, hws]

/-- Against the always-acknowledging stub, the loop acknowledges every
non-blank line with one wait and no retries. -/
theorem send_gcode_lines_loop_ackAlways (retries : Nat) :
    ∀ (lines : List String) (idx : Nat),
      (∀ raw ∈ lines, ((pyRstripCRLF raw ++ "\n").toList.all isPySpace) = false) →
      send_gcode_lines_loop ackAlways "ok" retries idx lines = ⟨none, lines.length, 0⟩ := by
  intro lines
  induction lines with
  | nil => intro idx _; rfl
  | cons raw rest ih =>
    intro idx h
    have hnb := h raw (List.mem_cons_self raw rest)
    have hrest : ∀ u ∈ rest, ((pyRstripCRLF u ++ "\n").toList.all isPySpace) = false :=
      fun u hu => h u (List.mem_cons_of_mem raw hu)
    rw [send_gcode_lines_loop]
    simp only [hnb, Bool.false_eq_true, if_false, send_line_and_wait_ackAlways idx retries,
      ih (idx + 1) hrest, List.length_cons, Nat.add_comm, if_true, Nat.sub_self, Nat.add_zero]

/-- **C2.** Streaming `N` non-blank lines against the stub device that
acknowledges immediately completes (no failure) with exactly `N`
acknowledgment waits and zero retries consumed; against the stub that never
acknowledges, the stream fails on the first line after `send_retries + 1`
attempts, reporting its 1-based index (`1`) and its stripped content. -/
theorem send_gcode_lines_stub_protocol (lines : List String) (retries : Nat)
    (hnb : ∀ raw ∈ lines, ((pyRstripCRLF raw ++ "\n").toList.all isPySpace) = false) :
    send_gcode_lines ackAlways "ok" retries lines = ⟨none, lines.length, 0⟩
    ∧ ∀ raw rest, lines = raw :: rest →
        send_gcode_lines ackNever "ok" retries lines
          = ⟨some ⟨1, pyRstrip (pyRstripCRLF raw ++ "\n")⟩, retries + 1, retries⟩ := by
  constructor
  · exact send_gcode_lines_loop_ackAlways retries lines 1 hnb
  · intro raw rest heq
    subst heq
    exact send_first_line_fails ackNever "ok" retries raw rest
      (fun _ => rfl) (hnb raw (List.mem_cons_self raw rest))

/-- Witness for `send_gcode_lines_stub_protocol` at two concrete G-code
lines and `send_retries = 2`. -/
theorem send_gcode_lines_stub_protocol_witness :
    send_gcode_lines ackAlways "ok" 2 ["G1 X0", "G1 X1"] = ⟨none, 2, 0⟩
    ∧ send_gcode_lines ackNever "ok" 2 ["G1 X0", "G1 X1"] = ⟨some ⟨1, "G1 X0"⟩, 3, 2⟩ := by
  have h := send_gcode_lines_stub_protocol ["G1 X0", "G1 X1"] 2 (by decide)
  refine ⟨h.1, ?_⟩
  have h2 := h.2 "G1 X0" ["G1 X1"] rfl
  have hs : pyRstrip (pyRstripCRLF "G1 X0" ++ "\n") = "G1 X0" := by decide
  rw [hs] at h2
  exact h2

/-- **C4, counterexample.** Against a device that answers every wait with a
line beginning with the error marker, the stream does *not* fail
immediately: with `send_retries = 2` it performs 3 acknowledgment waits and
consumes 2 retries before failing — `_wait_for_ack` has no error-marker
branch, so such a line is simply never matched and the timeout/retry path
runs. -/
theorem error_line_not_fast_failed : send_gcode_lines errDevice "ok" 2 ["G1 X0"]
      = ⟨some ⟨1, "G1 X0"⟩, 3, 2⟩ ∧ (2 : Nat) ≠ 0 ∧ (3 : Nat) ≠ 1 := by
  decide

/-- **C4, amended.** A device response line beginning with the error marker
receives no special treatment: any window whose lines do not contain the
acknowledgment substring (error-marker lines included) counts as a timeout,
so the controller retries the line up to the configured budget and then
fails the stream with that line's 1-based index and content. -/
theorem error_lines_are_retried (device : Nat → Nat → List String) (ack : String)
    (retries : Nat) (raw : String) (rest : List String)
    (hresp : ∀ i a t, t ∈ device i a →
      pyIn (lowerStr (pyStrip ack)) (lowerStr (pyStrip t)) = false)
    (hnb : ((pyRstripCRLF raw ++ "\n").toList.all isPySpace) = false) :
    send_gcode_lines device ack retries (raw :: rest)
      = ⟨some ⟨1, pyRstrip (pyRstripCRLF raw ++ "\n")⟩, retries + 1, retries⟩ :=
  send_first_line_fails device ack retries raw rest
    (fun a => wait_for_ack_none (device 1 a) ack (fun t ht => hresp 1 a t ht)) hnb

/-- Witness for `error_lines_are_retried`: the error-marker stub device,
`send_retries = 1`, one line. -/
theorem error_lines_are_retried_witness :
    send_gcode_lines errDevice "ok" 1 ["G1 X5"] = ⟨some ⟨1, "G1 X5"⟩, 2, 1⟩ := by
  have h := error_lines_are_retried errDevice "ok" 1 "G1 X5" []
    (by intro i a t ht; simp only [errDevice, List.mem_singleton] at ht; subst ht; decide)
    (by decide)
  have hs : pyRstrip (pyRstripCRLF "G1 X5" ++ "\n") = "G1 X5" := by decide
  rw [hs] at h
  exact h

/-! ## Claims about the job queue -/

/-- **C7.** `cancel_job` is a no-op on a job whose status is `completed` or
`cancelled`; on every other status it transitions the job to `cancelled`,
clears the print-progress metadata, and — when a plotter controller is
active — sets both that controller's cancellation flag and the
rehome-on-unwind flag (and leaves the plotter state untouched when no
controller is active). -/
theorem cancel_job_spec (s : QueueSt) :
    ((s.status = JobStatus.completed ∨ s.status = JobStatus.cancelled) → cancel_job s = s)
    ∧ (s.status ≠ JobStatus.completed → s.status ≠ JobStatus.cancelled →
        (cancel_job s).status = JobStatus.cancelled
        ∧ (cancel_job s).print_progress = none
        ∧ (∀ c, s.plotter.controller = some c →
            (cancel_job s).plotter.should_rehome_on_cancel = true
            ∧ (cancel_job s).plotter.controller = some ⟨true⟩)
        ∧ (s.plotter.controller = none → (cancel_job s).plotter = s.plotter)) := by
  constructor
  · intro h
    simp [cancel_job, h]
  · intro h1 h2
    have hcond : ¬(s.status = JobStatus.completed ∨ s.status = JobStatus.cancelled) := by
      rintro (h | h)
      · exact h1 h
      · exact h2 h
    have hc : cancel_job s = { s with
        status := JobStatus.cancelled
        plotter := signal_plotter_cancel s.plotter
        print_progress := none } := by
      simp [cancel_job, hcond, clear_print_progress]
    rw [hc]
    refine ⟨rfl, rfl, ?_, ?_⟩
    · intro c hcc
      obtain ⟨cr⟩ := c
      simp [signal_plotter_cancel, hcc]
    · intro hnone
      simp [signal_plotter_cancel, hnone]

/-- Witness for `cancel_job_spec`: a completed job is untouched; a printing
job with an active controller is cancelled with both flags set and its
progress cleared. -/
theorem cancel_job_spec_witness :
    cancel_job ⟨JobStatus.completed, none, ⟨none, false⟩⟩
        = ⟨JobStatus.completed, none, ⟨none, false⟩⟩
    ∧ (cancel_job ⟨JobStatus.printing, some ⟨some 100, some 3⟩, ⟨some ⟨false⟩, false⟩⟩).status
        = JobStatus.cancelled
    ∧ (cancel_job ⟨JobStatus.printing, some ⟨some 100, some 3⟩, ⟨some ⟨false⟩, false⟩⟩).print_progress
        = none
    ∧ (cancel_job
        ⟨JobStatus.printing, some ⟨some 100, some 3⟩, ⟨some ⟨false⟩, false⟩⟩).plotter.should_rehome_on_cancel
        = true
    ∧ (cancel_job
        ⟨JobStatus.printing, some ⟨some 100, some 3⟩, ⟨some ⟨false⟩, false⟩⟩).plotter.controller
        = some ⟨true⟩ := by
  have h1 := (cancel_job_spec ⟨JobStatus.completed, none, ⟨none, false⟩⟩).1 (Or.inl rfl)
  have h2 := (cancel_job_spec
    ⟨JobStatus.printing, some ⟨some 100, some 3⟩, ⟨some ⟨false⟩, false⟩⟩).2
    (by decide) (by decide)
  obtain ⟨hs, hp, hc, -⟩ := h2
  obtain ⟨hr, hcc⟩ := hc ⟨false⟩ rfl
  exact ⟨h1, hs, hp, hr, hcc⟩

/-- **C10, counterexample.** With a stored total of `0` (as
`_init_print_progress(0)` produces) and no `total_lines` argument, the
`or`-chain makes `existing_total` falsy, so `_update_print_progress` skips
the upper clamp entirely: the stored record becomes
`current_line = 5 > total_lines = 0`. -/
theorem print_progress_clamp_violated :
    update_print_progress (some (init_print_progress 0)) 5 none = ⟨some 0, some 5⟩
    ∧ ¬((5 : Int) ≤ (0 : Int)) := by decide

/-- **C10, amended.** `_init_print_progress` always stores
`0 ≤ current_line ≤ total_lines` with `total_lines ≥ 0`.  For
`_update_print_progress` (over a stored record whose total, if present, is
nonnegative — all records the module itself writes are): the stored current
line is always ≥ 0 and the stored total, when present, is ≥ 0; the upper
clamp `current_line ≤ total_lines` is guaranteed only when the resulting
total is *positive* — when it is `0` (or the record has no total), Python's
`or`-chain treats it as falsy and the current line is not clamped above. -/
theorem print_progress_clamped (stored : Option PP) (cur : Int) (tot : Option Int) (t0 : Int)
    (hstored : ∀ t, (stored.getD ⟨none, none⟩).total_lines = some t → 0 ≤ t) :
    (∀ t c, init_print_progress t0 = ⟨some t, some c⟩ → 0 ≤ c ∧ c ≤ t ∧ 0 ≤ t)
    ∧ (∀ c, (update_print_progress stored cur tot).current_line = some c → 0 ≤ c)
    ∧ (∀ t, (update_print_progress stored cur tot).total_lines = some t → 0 ≤ t)
    ∧ (∀ c t, (update_print_progress stored cur tot).current_line = some c →
        (update_print_progress stored cur tot).total_lines = some t → 0 < t → c ≤ t) := by
  constructor
  · intro t c h
    simp only [init_print_progress, PP.mk.injEq, Option.some.injEq] at h
    simp only [sup_eq_max, Int.max_def] at h
    split_ifs at h <;> omega
  · rcases stored with _ | ⟨ptl, pcl⟩ <;> rcases tot with _ | t1 <;>
      [skip; skip; rcases ptl with _ | t2; rcases ptl with _ | t2] <;>
      simp only [update_print_progress, Option.getD, Option.some.injEq] at hstored ⊢ <;>
      refine ⟨?_, ?_, ?_⟩ <;> intros <;> simp_all <;>
      simp only [sup_eq_max, Int.max_def, min_def] at * <;>
      first
      | omega
      | (split_ifs at * <;> omega)

/-- Witness for `print_progress_clamped` at a stored total of 10 and an
over-long current line of 25, which is clamped to 10. -/
theorem print_progress_clamped_witness :
    (update_print_progress (some ⟨some 10, some 0⟩) 25 none).current_line = some 10
    ∧ (update_print_progress (some ⟨some 10, some 0⟩) 25 none).total_lines = some 10
    ∧ (10 : Int) ≤ 10 := by
  have h := print_progress_clamped (some ⟨some 10, some 0⟩) 25 none 7
    (by intro t ht; simp only [Option.getD] at ht; simp at ht; omega)
  exact ⟨by decide, by decide, h.2.2.2 10 10 (by decide) (by decide) (by decide)⟩


/-! ## Structural lemmas for the RDP simplifiers -/

/-- `dropLast` preserves sublists. -/
theorem sublist_dropLast {α : Type*} {l m : List α} (h : l.Sublist m) :
    l.dropLast.Sublist m.dropLast := by
  induction h with
  | slnil => exact List.Sublist.refl _
  | @cons l' m' a h ih =>
    cases m' with
    | nil =>
      have : l' = [] := List.sublist_nil.mp h
      subst this
      simp
    | cons b t =>
      exact (show ((a :: b :: t).dropLast = a :: (b :: t).dropLast) from rfl) ▸ ih.cons a
  | @cons₂ l' m' a h ih =>
    cases l' with
    | nil => simp
    | cons c s =>
      cases m' with
      | nil => simp at h
      | cons b t =>
        exact (show ((a :: b :: t).dropLast = a :: (b :: t).dropLast) from rfl) ▸
          (show ((a :: c :: s).dropLast = a :: (c :: s).dropLast) from rfl) ▸ ih.cons₂ a

/-- Taking at least one element preserves the head. -/
theorem head?_take {α : Type*} (l : List α) (k : Nat) (hk : 1 ≤ k) :
    (l.take k).head? = l.head? := by
  cases l with
  | nil => simp
  | cons a t =>
    cases k with
    | zero => omega
    | succ n => rfl

/-- `dropLast` preserves the head of a list with at least two elements. -/
theorem dropLast_head? {α : Type*} (l : List α) (h : 2 ≤ l.length) :
    l.dropLast.head? = l.head? := by
  cases l with
  | nil => simp at h
  | cons a t =>
    cases t with
    | nil => simp at h
    | cons b u => rfl

theorem dropLast_ne_nil_of_two_le {α : Type*} (l : List α) (h : 2 ≤ l.length) :
    l.dropLast ≠ [] := by
  have hl := List.length_dropLast l
  intro hc
  rw [hc] at hl
  simp at hl
  omega

theorem getLastD_mem {α : Type*} (l : List α) (d : α) (h : l ≠ []) :
    l.getLastD d ∈ l := by
  rw [List.getLastD_eq_getLast? d l, List.getLast?_eq_getLast l h]
  exact List.getLast_mem h

/-- The `[first, last]` pair returned by the flat branch of both RDP
variants is a sublist of the original. -/
theorem head_last_pair_sublist {α : Type*} [Inhabited α] (l : List α) (d : α)
    (h : 2 ≤ l.length) : [l.headI, l.getLastD d].Sublist l := by
  cases l with
  | nil => simp at h
  | cons a t =>
    cases t with
    | nil => simp at h
    | cons b u =>
      have hmem : (b :: u).getLastD a ∈ b :: u := getLastD_mem (b :: u) a (by simp)
      have : (a :: b :: u).getLastD d = (b :: u).getLastD a := rfl
      rw [show (a :: b :: u).headI = a from rfl, this]
      exact List.Sublist.cons₂ a (List.singleton_sublist.mpr hmem)

theorem getLastD_eq_getLast?' {α : Type*} (l : List α) (d : α) (h : l ≠ []) :
    some (l.getLastD d) = l.getLast? := by
  rw [List.getLastD_eq_getLast? d l, List.getLast?_eq_getLast l h]
  rfl

/-- The flat branch preserves head and last. -/
theorem head_pair_props {α : Type*} [Inhabited α] (l : List α) (d : α) (h : l ≠ []) :
    ([l.headI, l.getLastD d] : List α).head? = l.head?
    ∧ ([l.headI, l.getLastD d] : List α).getLast? = l.getLast? := by
  cases l with
  | nil => exact absurd rfl h
  | cons a t =>
    constructor
    · rfl
    · show some ((a :: t).getLastD ((a :: t).headI)) = (a :: t).getLast?
      exact getLastD_eq_getLast?' (a :: t) _ (by simp)

/-- Whenever the vectorizer's `_rdp` returns, the result is an ordered
sublist of the input that keeps the first and last points and (for inputs
of ≥ 2 points) has at least 2 points. -/
theorem rdpFuel_props : ∀ (fuel : Nat) (points : List Pt) (eps : ℚ) (out : List Pt),
    rdpFuel fuel points eps = some out →
    out.Sublist points
    ∧ (2 ≤ points.length → 2 ≤ out.length)
    ∧ (points ≠ [] → out.head? = points.head? ∧ out.getLast? = points.getLast?) := by
  intro fuel
  induction fuel with
  | zero =>
    intro points eps out hout
    rw [rdpFuel] at hout
    by_cases hbase : points.length < 3 ∨ eps ≤ 0
    · rw [if_pos hbase] at hout
      injection hout with hout
      subst hout
      exact ⟨List.Sublist.refl _, fun h => h, fun h => ⟨rfl, rfl⟩⟩
    · rw [if_neg hbase] at hout
      simp only [] at hout
      push_neg at hbase
      by_cases hflat : (rdpDists points eps).1.getD (rdpIdx points eps) 0 ≤ (rdpDists points eps).2
      · rw [if_pos hflat] at hout
        injection hout with hout
        subst hout
        have hlen3 : 3 ≤ points.length := by omega
        have hne : points ≠ [] := by
          intro hc; rw [hc] at hlen3; simp at hlen3
        have hp := head_pair_props points points.headI hne
        exact ⟨head_last_pair_sublist points _ (by omega), fun _ => by simp,
          fun _ => hp⟩
      · rw [if_neg hflat] at hout
        by_cases hguard : 1 ≤ rdpIdx points eps ∧ rdpIdx points eps + 1 < points.length
        · rw [if_pos hguard] at hout
          cases hout
        · rw [if_neg hguard] at hout
          cases hout
  | succ n ih =>
    intro points eps out hout
    rw [rdpFuel] at hout
    by_cases hbase : points.length < 3 ∨ eps ≤ 0
    · rw [if_pos hbase] at hout
      injection hout with hout
      subst hout
      exact ⟨List.Sublist.refl _, fun h => h, fun h => ⟨rfl, rfl⟩⟩
    · rw [if_neg hbase] at hout
      simp only [] at hout
      push_neg at hbase
      by_cases hflat : (rdpDists points eps).1.getD (rdpIdx points eps) 0 ≤ (rdpDists points eps).2
      · rw [if_pos hflat] at hout
        injection hout with hout
        subst hout
        have hlen3 : 3 ≤ points.length := by omega
        have hne : points ≠ [] := by
          intro hc; rw [hc] at hlen3; simp at hlen3
        have hp := head_pair_props points points.headI hne
        exact ⟨head_last_pair_sublist points _ (by omega), fun _ => by simp,
          fun _ => hp⟩
      · rw [if_neg hflat] at hout
        by_cases hguard : 1 ≤ rdpIdx points eps ∧ rdpIdx points eps + 1 < points.length
        · rw [if_pos hguard] at hout
          obtain ⟨hidx1, hidx2⟩ := hguard
          set idx := rdpIdx points eps with hidxdef
          have hlen3 : 3 ≤ points.length := by omega
          cases hfh : rdpFuel n (points.take (idx + 1)) eps with
          | none => rw [hfh] at hout; cases hout
          | some fh =>
            cases hsh : rdpFuel n (points.drop idx) eps with
            | none => rw [hfh, hsh] at hout; cases hout
            | some sh =>
              rw [hfh, hsh] at hout
              simp only [Option.pure_def, Option.bind_eq_bind, Option.some_bind,
                Option.some.injEq] at hout
              subst hout
              have htlen : (points.take (idx + 1)).length = idx + 1 := by
                rw [List.length_take]; omega
              have hdlen : (points.drop idx).length = points.length - idx := by
                rw [List.length_drop]
              have hfp := ih (points.take (idx + 1)) eps fh hfh
              have hsp := ih (points.drop idx) eps sh hsh
              have hfh2 : 2 ≤ fh.length := hfp.2.1 (by omega)
              have hsh2 : 2 ≤ sh.length := hsp.2.1 (by omega)
              have htne : points.take (idx + 1) ≠ [] := by
                intro hc
                have h0 := congrArg List.length hc
                rw [htlen] at h0
                simp only [List.length_nil] at h0
                omega
              have hdne : points.drop idx ≠ [] := by
                intro hc
                have h0 := congrArg List.length hc
                rw [hdlen] at h0
                simp only [List.length_nil] at h0
                omega
              refine ⟨?_, ?_, ?_⟩
              · have h1 : fh.dropLast.Sublist (points.take (idx + 1)).dropLast :=
                  sublist_dropLast hfp.1
                have htake : (points.take (idx + 1)).dropLast = points.take idx := by
                  rw [List.dropLast_eq_take, htlen]
                  simp only [Nat.add_sub_cancel]
                  rw [List.take_take]
                  congr 1
                  omega
                rw [htake] at h1
                have := h1.append hsp.1
                rwa [List.take_append_drop] at this
              · intro _
                have := List.length_append fh.dropLast sh
                have := List.length_dropLast fh
                omega
              · intro hne
                constructor
                · rw [List.head?_append_of_ne_nil _ (dropLast_ne_nil_of_two_le fh hfh2)]
                  rw [dropLast_head? fh hfh2, (hfp.2.2 htne).1,
                    head?_take points (idx + 1) (by omega)]
                · rw [List.getLast?_append_of_ne_nil _ (by
                    intro hc; rw [hc] at hsh2; simp at hsh2)]
                  rw [(hsp.2.2 hdne).2]
                  conv_rhs => rw [← List.take_append_drop idx points]
                  rw [List.getLast?_append_of_ne_nil _ hdne]
        · rw [if_neg hguard] at hout
          cases hout

/-- The interior scan either returns its initial pair unchanged or an index
within the scanned range. -/
theorem interiorArgmaxAux_cases : ∀ (ds : List ℚ) (i bi : Nat) (bv : ℚ),
    interiorArgmaxAux ds i bi bv = (bi, bv)
    ∨ (i ≤ (interiorArgmaxAux ds i bi bv).1
        ∧ (interiorArgmaxAux ds i bi bv).1 < i + ds.length) := by
  intro ds
  induction ds with
  | nil => intro i bi bv; exact Or.inl rfl
  | cons d t ih =>
    intro i bi bv
    rw [interiorArgmaxAux]
    by_cases hlt : bv < d
    · rw [if_pos hlt]
      right
      rcases ih (i + 1) i d with h | h
      · rw [h]
        simp only [List.length_cons]
        omega
      · simp only [List.length_cons]
        omega
    · rw [if_neg hlt]
      rcases ih (i + 1) bi bv with h | h
      · exact Or.inl h
      · right
        simp only [List.length_cons]
        omega

/-- The interior distance array covers the `len − 2` interior points. -/
theorem simplifyDists_length (points : List Pt) :
    (simplifyDists points).length = points.length - 2 := by
  by_cases h : simplifyLineLenSq points = 0 <;>
    simp [simplifyDists, h, List.length_dropLast, List.length_drop] <;> omega

/-- With a positive tolerance, `_simplify_path_rdp` always terminates:
whenever the distance test demands a split, the maximal distance is
positive, so the scan must have updated its running best, placing the split
index strictly inside the list. -/
theorem simplifyFuel_total : ∀ (fuel : Nat) (points : List Pt) (eps : ℚ),
    0 < eps → points.length ≤ fuel → ∃ out, simplifyFuel fuel points eps = some out := by
  intro fuel
  induction fuel with
  | zero =>
    intro points eps heps hlen
    have hnil : points = [] := List.length_eq_zero.mp (Nat.le_zero.mp hlen)
    subst hnil
    exact ⟨[], by rw [simplifyFuel]; rfl⟩
  | succ n ih =>
    intro points eps heps hlen
    rw [simplifyFuel]
    by_cases hbase : points.length < 3
    · rw [if_pos hbase]; exact ⟨points, rfl⟩
    · rw [if_neg hbase]
      by_cases hexc : simplifyExceeds points eps = true
      · rw [if_pos hexc]
        have him2 : 0 < (simplifyIm points).2 := by
          unfold simplifyExceeds at hexc
          rw [if_neg (not_lt.mpr (le_of_lt heps))] at hexc
          simp only [decide_eq_true_eq] at hexc
          have hk : 0 < (if simplifyLineLenSq points = 0 then (1 : ℚ)
              else simplifyLineLenSq points) := by
            by_cases h0 : simplifyLineLenSq points = 0
            · rw [if_pos h0]; norm_num
            · rw [if_neg h0]
              have hnn : 0 ≤ simplifyLineLenSq points := by
                show (0 : ℚ) ≤ ((points.getLastD points.headI).1 - points.headI.1)
                    * ((points.getLastD points.headI).1 - points.headI.1)
                  + ((points.getLastD points.headI).2 - points.headI.2)
                    * ((points.getLastD points.headI).2 - points.headI.2)
                have h1 := mul_self_nonneg ((points.getLastD points.headI).1 - points.headI.1)
                have h2 := mul_self_nonneg ((points.getLastD points.headI).2 - points.headI.2)
                linarith
              exact lt_of_le_of_ne hnn (Ne.symm h0)
          have heps2 : 0 < eps ^ 2 := by positivity
          exact lt_trans (mul_pos heps2 hk) hexc
        have hguard : 1 ≤ (simplifyIm points).1 ∧ (simplifyIm points).1 + 1 < points.length := by
          have hdl := simplifyDists_length points
          rcases interiorArgmaxAux_cases (simplifyDists points) 1 0 0 with h | h
          · rw [simplifyIm, h] at him2
            norm_num at him2
          · rw [simplifyIm]
            omega
        rw [if_pos hguard]
        obtain ⟨r1, hr1⟩ := ih (points.take ((simplifyIm points).1 + 1)) eps heps
          (by rw [List.length_take]; omega)
        obtain ⟨r2, hr2⟩ := ih (points.drop (simplifyIm points).1) eps heps
          (by rw [List.length_drop]; omega)
        refine ⟨r1.dropLast ++ r2, ?_⟩
        rw [hr1, hr2]
        rfl
      · rw [if_neg hexc]
        exact ⟨_, rfl⟩

/-- Whenever the gcode module's `_simplify_path_rdp` returns, the result is
an ordered sublist of the input keeping the first and last points, of at
least 2 points for inputs of ≥ 2 points. -/
theorem simplifyFuel_props : ∀ (fuel : Nat) (points : List Pt) (eps : ℚ) (out : List Pt),
    simplifyFuel fuel points eps = some out →
    out.Sublist points
    ∧ (2 ≤ points.length → 2 ≤ out.length)
    ∧ (points ≠ [] → out.head? = points.head? ∧ out.getLast? = points.getLast?) := by
  intro fuel
  induction fuel with
  | zero =>
    intro points eps out hout
    rw [simplifyFuel] at hout
    by_cases hbase : points.length < 3
    · rw [if_pos hbase] at hout
      injection hout with hout
      subst hout
      exact ⟨List.Sublist.refl _, fun h => h, fun h => ⟨rfl, rfl⟩⟩
    · rw [if_neg hbase] at hout
      by_cases hexc : simplifyExceeds points eps = true
      · rw [if_pos hexc] at hout
        by_cases hguard : 1 ≤ (simplifyIm points).1 ∧ (simplifyIm points).1 + 1 < points.length
        · rw [if_pos hguard] at hout
          cases hout
        · rw [if_neg hguard] at hout
          cases hout
      · rw [if_neg hexc] at hout
        injection hout with hout
        subst hout
        have hlen3 : 3 ≤ points.length := by omega
        have hne : points ≠ [] := by
          intro hc; rw [hc] at hlen3; simp at hlen3
        have hp := head_pair_props points points.headI hne
        exact ⟨head_last_pair_sublist points _ (by omega), fun _ => by simp,
          fun _ => hp⟩
  | succ n ih =>
    intro points eps out hout
    rw [simplifyFuel] at hout
    by_cases hbase : points.length < 3
    · rw [if_pos hbase] at hout
      injection hout with hout
      subst hout
      exact ⟨List.Sublist.refl _, fun h => h, fun h => ⟨rfl, rfl⟩⟩
    · rw [if_neg hbase] at hout
      by_cases hexc : simplifyExceeds points eps = true
      · rw [if_pos hexc] at hout
        by_cases hguard : 1 ≤ (simplifyIm points).1 ∧ (simplifyIm points).1 + 1 < points.length
        · rw [if_pos hguard] at hout
          obtain ⟨hidx1, hidx2⟩ := hguard
          set idx := (simplifyIm points).1 with hidxdef
          have hlen3 : 3 ≤ points.length := by omega
          cases hfh : simplifyFuel n (points.take (idx + 1)) eps with
          | none => rw [hfh] at hout; cases hout
          | some fh =>
            cases hsh : simplifyFuel n (points.drop idx) eps with
            | none => rw [hfh, hsh] at hout; cases hout
            | some sh =>
              rw [hfh, hsh] at hout
              simp only [Option.pure_def, Option.bind_eq_bind, Option.some_bind,
                Option.some.injEq] at hout
              subst hout
              have htlen : (points.take (idx + 1)).length = idx + 1 := by
                rw [List.length_take]; omega
              have hdlen : (points.drop idx).length = points.length - idx := by
                rw [List.length_drop]
              have hfp := ih (points.take (idx + 1)) eps fh hfh
              have hsp := ih (points.drop idx) eps sh hsh
              have hfh2 : 2 ≤ fh.length := hfp.2.1 (by omega)
              have hsh2 : 2 ≤ sh.length := hsp.2.1 (by omega)
              have htne : points.take (idx + 1) ≠ [] := by
                intro hc
                have h0 := congrArg List.length hc
                rw [htlen] at h0
                simp only [List.length_nil] at h0
                omega
              have hdne : points.drop idx ≠ [] := by
                intro hc
                have h0 := congrArg List.length hc
                rw [hdlen] at h0
                simp only [List.length_nil] at h0
                omega
              refine ⟨?_, ?_, ?_⟩
              · have h1 : fh.dropLast.Sublist (points.take (idx + 1)).dropLast :=
                  sublist_dropLast hfp.1
                have htake : (points.take (idx + 1)).dropLast = points.take idx := by
                  rw [List.dropLast_eq_take, htlen]
                  simp only [Nat.add_sub_cancel]
                  rw [List.take_take]
                  congr 1
                  omega
                rw [htake] at h1
                have := h1.append hsp.1
                rwa [List.take_append_drop] at this
              · intro _
                have := List.length_append fh.dropLast sh
                have := List.length_dropLast fh
                omega
              · intro hne
                constructor
                · rw [List.head?_append_of_ne_nil _ (dropLast_ne_nil_of_two_le fh hfh2)]
                  rw [dropLast_head? fh hfh2, (hfp.2.2 htne).1,
                    head?_take points (idx + 1) (by omega)]
                · rw [List.getLast?_append_of_ne_nil _ (by
                    intro hc; rw [hc] at hsh2; simp at hsh2)]
                  rw [(hsp.2.2 hdne).2]
                  conv_rhs => rw [← List.take_append_drop idx points]
                  rw [List.getLast?_append_of_ne_nil _ hdne]
        · rw [if_neg hguard] at hout
          cases hout
      · rw [if_neg hexc] at hout
        injection hout with hout
        subst hout
        have hlen3 : 3 ≤ points.length := by omega
        have hne : points ≠ [] := by
          intro hc; rw [hc] at hlen3; simp at hlen3
        have hp := head_pair_props points points.headI hne
        exact ⟨head_last_pair_sublist points _ (by omega), fun _ => by simp,
          fun _ => hp⟩

/-! ## Claims about the RDP simplifiers and the vectorizer -/

/-- **C5, counterexample.** The vectorizer's `_rdp` does not return a
subset for *every* ≥3-point polyline and ε > 0: when the first-to-last
chord is inside the `np.allclose` tolerance (`1e-8` per component) without
being exactly zero and the farthest point is the final one, the recursion
calls itself on an unchanged argument — in CPython a `RecursionError`, here
`none`.  Input: `[(0,0), (1e-9,0), (1e-8,0)]` with `ε = 1e-10 > 0`. -/
theorem rdp_can_fail_to_return :
    rdp [((0 : ℚ), (0 : ℚ)), ((1 : ℚ) / 1000000000, (0 : ℚ)),
        ((1 : ℚ) / 100000000, (0 : ℚ))] ((1 : ℚ) / 10000000000) = none
    ∧ 3 ≤ ([((0 : ℚ), (0 : ℚ)), ((1 : ℚ) / 1000000000, (0 : ℚ)),
        ((1 : ℚ) / 100000000, (0 : ℚ))] : List Pt).length
    ∧ (0 : ℚ) < (1 : ℚ) / 10000000000 := by
  refine ⟨?_, by decide, by norm_num⟩
  have hdists : rdpDists [((0 : ℚ), (0 : ℚ)), ((1 : ℚ) / 1000000000, (0 : ℚ)),
      ((1 : ℚ) / 100000000, (0 : ℚ))] ((1 : ℚ) / 10000000000)
      = ([0, 1 / 1000000000000000000, 1 / 10000000000000000], 1 / 100000000000000000000) := by
    rw [rdpDists]
    norm_num [sqDist, abs_le]
  have hidx : rdpIdx [((0 : ℚ), (0 : ℚ)), ((1 : ℚ) / 1000000000, (0 : ℚ)),
      ((1 : ℚ) / 100000000, (0 : ℚ))] ((1 : ℚ) / 10000000000) = 2 := by
    rw [rdpIdx, hdists]
    rw [argmaxFirst]
    rw [argmaxAux]
    rw [if_pos (by norm_num)]
    rw [argmaxAux]
    rw [if_pos (by norm_num)]
    rfl
  rw [rdp, rdpFuel]
  rw [if_neg (by norm_num)]
  simp only [hdists, hidx]
  rw [if_neg (by norm_num)]
  rw [if_neg (by norm_num)]

/-- **C5, amended.** For every polyline of ≥ 3 points and ε > 0: the gcode
module's `_simplify_path_rdp` always terminates and returns an ordered
sublist of the input that keeps the first and last original points and has
at most as many points as the input; the vectorizer's `_rdp` returns such a
sublist *whenever it returns* (its near-degenerate-chord tolerance admits
non-terminating inputs, see `rdp_can_fail_to_return`).  Both split at the
first index attaining the maximal distance and fall back to point-to-point
distance on a degenerate chord, as embedded in `rdpDists`/`simplifyDists`. -/
theorem rdp_subset_properties (points : List Pt) (eps : ℚ)
    (h3 : 3 ≤ points.length) (heps : 0 < eps) :
    (∃ out, simplify_path_rdp points eps = some out
      ∧ out.Sublist points ∧ out.head? = points.head? ∧ out.getLast? = points.getLast?
      ∧ out.length ≤ points.length)
    ∧ (∀ out, rdp points eps = some out →
      out.Sublist points ∧ out.head? = points.head? ∧ out.getLast? = points.getLast?
      ∧ out.length ≤ points.length) := by
  have hne : points ≠ [] := by
    intro hc; rw [hc] at h3; simp at h3
  constructor
  · obtain ⟨out, hout⟩ := simplifyFuel_total points.length points eps heps le_rfl
    have hp := simplifyFuel_props points.length points eps out hout
    exact ⟨out, by rw [simplify_path_rdp]; exact hout, hp.1, (hp.2.2 hne).1,
      (hp.2.2 hne).2, hp.1.length_le⟩
  · intro out hout
    rw [rdp] at hout
    have hp := rdpFuel_props points.length points eps out hout
    exact ⟨hp.1, (hp.2.2 hne).1, (hp.2.2 hne).2, hp.1.length_le⟩

/-- Witness for `rdp_subset_properties` on a concrete 3-point corner path
(which both simplifiers keep in full at ε = 1/2). -/
theorem rdp_subset_properties_witness :
    simplify_path_rdp [((0 : ℚ), (0 : ℚ)), ((1 : ℚ), (1 : ℚ)), ((2 : ℚ), (0 : ℚ))] (3 : ℚ)
      = some [((0 : ℚ), (0 : ℚ)), ((2 : ℚ), (0 : ℚ))]
    ∧ List.Sublist [((0 : ℚ), (0 : ℚ)), ((2 : ℚ), (0 : ℚ))]
        [((0 : ℚ), (0 : ℚ)), ((1 : ℚ), (1 : ℚ)), ((2 : ℚ), (0 : ℚ))]
    ∧ ([((0 : ℚ), (0 : ℚ)), ((2 : ℚ), (0 : ℚ))] : List Pt).length ≤ 3 := by
  have h := rdp_subset_properties
    [((0 : ℚ), (0 : ℚ)), ((1 : ℚ), (1 : ℚ)), ((2 : ℚ), (0 : ℚ))] (3 : ℚ)
    (by decide) (by norm_num)
  obtain ⟨⟨out, hout, hsub, -, -, hlen⟩, -⟩ := h
  have hll : simplifyLineLenSq [((0 : ℚ), (0 : ℚ)), ((1 : ℚ), (1 : ℚ)), ((2 : ℚ), (0 : ℚ))]
      = 4 := by
    rw [simplifyLineLenSq]
    norm_num
  have him : simplifyIm [((0 : ℚ), (0 : ℚ)), ((1 : ℚ), (1 : ℚ)), ((2 : ℚ), (0 : ℚ))]
      = (1, 4) := by
    rw [simplifyIm, simplifyDists, hll]
    rw [if_neg (by norm_num)]
    norm_num
    rw [interiorArgmaxAux, if_pos (by norm_num)]
    rfl
  have hcomp : simplify_path_rdp
      [((0 : ℚ), (0 : ℚ)), ((1 : ℚ), (1 : ℚ)), ((2 : ℚ), (0 : ℚ))] (3 : ℚ)
      = some [((0 : ℚ), (0 : ℚ)), ((2 : ℚ), (0 : ℚ))] := by
    rw [simplify_path_rdp]
    rw [show (List.length [((0 : ℚ), (0 : ℚ)), ((1 : ℚ), (1 : ℚ)), ((2 : ℚ), (0 : ℚ))] : Nat)
      = 3 from rfl]
    rw [simplifyFuel]
    rw [if_neg (by decide)]
    rw [if_neg (by
      rw [simplifyExceeds, hll, him]
      rw [if_neg (by norm_num)]
      norm_num)]
    rfl
  rw [hcomp] at hout
  injection hout with hout
  subst hout
  exact ⟨hcomp, hsub, hlen⟩

/-- **C1, counterexample.** `vectorize_image` contains no `raise` at all:
on a mask with no ink pixels `find_contours` yields no contours, and the
function returns normally with an *empty* path collection instead of
failing with a GeometryError. -/
theorem vectorize_empty_mask_no_error :
    vectorize_image 2 2 [] (2 : ℚ) 24 1 = some ⟨2, 2, []⟩
    ∧ (⟨2, 2, []⟩ : VectorData).paths = [] := ⟨rfl, rfl⟩

/-- **C1, amended.** When binarization leaves no ink pixels (no contours)
or every traced polyline is discarded by the min-point filter,
`vectorize_image` does *not* fail: it returns a `VectorData` with an empty
path collection.  The failure the spec describes happens downstream:
`vector_data_to_gcode` raises `GCodeError("Vector data did not contain any
drawable paths.")` on such data (given a valid feed rate). -/
theorem vectorize_empty_result_amended (width height : Int) (contours : List (List Pt))
    (tol : ℚ) (minPts step : Nat) (v : VectorData) (settings : GCodeSettings)
    (hshort : ∀ c ∈ contours, c.length < minPts)
    (hempty : v.paths = []) (hfeed : 0 < settings.feed_rate) :
    vectorize_image width height contours tol minPts step = some ⟨width, height, []⟩
    ∧ vector_data_to_gcode v settings
        = Except.error "Vector data did not contain any drawable paths." := by
  constructor
  · have key : ∀ (cs : List (List Pt)), (∀ c ∈ cs, c.length < minPts) →
        vectorize_paths tol minPts step cs = some [] := by
      intro cs
      induction cs with
      | nil => intro _; rfl
      | cons c rest ih =>
        intro hs
        rw [vectorize_paths, if_pos (hs c (List.mem_cons_self c rest))]
        exact ih (fun u hu => hs u (List.mem_cons_of_mem c hu))
    rw [vectorize_image, key contours hshort]
    rfl
  · rw [vector_data_to_gcode, if_neg (by omega : ¬settings.feed_rate ≤ 0), if_pos hempty]

/-- Witness for `vectorize_empty_result_amended`: no contours at all, and
the default settings. -/
theorem vectorize_empty_result_amended_witness :
    vectorize_image 4 4 [] (2 : ℚ) 24 1 = some ⟨4, 4, []⟩
    ∧ vector_data_to_gcode ⟨4, 4, []⟩ defaultSettings
        = Except.error "Vector data did not contain any drawable paths." :=
  vectorize_empty_result_amended 4 4 [] (2 : ℚ) 24 1 ⟨4, 4, []⟩ defaultSettings
    (by intro c hc; cases hc) rfl (by decide)

/-- **C9, counterexample.** With `min_path_points = 3` and
`downsample_step = 2` (both in the claim's admitted range), the closed
5-point contour that `find_contours` produces around a single ink pixel is
simplified by RDP to its 2 endpoints and then downsampled to a *single*
point, which passes the `len < min_path_points // 2 = 1` filter — so
`vectorize_image` returns (and `save_vector_data` persists) a path of
length 1 < 2. -/
theorem vectorize_short_path_counterexample :
    vectorize_image 3 3
        [[((1 : ℚ) / 2, (1 : ℚ)), ((1 : ℚ), (3 : ℚ) / 2), ((3 : ℚ) / 2, (1 : ℚ)),
          ((1 : ℚ), (1 : ℚ) / 2), ((1 : ℚ) / 2, (1 : ℚ))]] (10 : ℚ) 3 2
      = some ⟨3, 3, [[((1 : ℚ), (1 : ℚ) / 2)]]⟩
    ∧ ¬(2 ≤ ([((1 : ℚ), (1 : ℚ) / 2)] : List Pt).length)
    ∧ (save_vector_data ⟨3, 3, [[((1 : ℚ), (1 : ℚ) / 2)]]⟩).paths
        = [[((1 : ℚ), (1 : ℚ) / 2)]] := by
  refine ⟨?_, by decide, rfl⟩
  have hdists : rdpDists [((1 : ℚ), (1 : ℚ) / 2), ((3 : ℚ) / 2, (1 : ℚ)),
      ((1 : ℚ), (3 : ℚ) / 2), ((1 : ℚ) / 2, (1 : ℚ)), ((1 : ℚ), (1 : ℚ) / 2)] (10 : ℚ)
      = ([0, 1 / 2, 1, 1 / 2, 0], 100) := by
    rw [rdpDists]
    norm_num [sqDist, abs_le]
  have hidx : rdpIdx [((1 : ℚ), (1 : ℚ) / 2), ((3 : ℚ) / 2, (1 : ℚ)),
      ((1 : ℚ), (3 : ℚ) / 2), ((1 : ℚ) / 2, (1 : ℚ)), ((1 : ℚ), (1 : ℚ) / 2)] (10 : ℚ) = 2 := by
    rw [rdpIdx, hdists]
    rw [argmaxFirst]
    rw [argmaxAux, if_pos (by norm_num)]
    rw [argmaxAux, if_pos (by norm_num)]
    rw [argmaxAux, if_neg (by norm_num)]
    rw [argmaxAux, if_neg (by norm_num)]
    rfl
  have hrdp : rdp [((1 : ℚ), (1 : ℚ) / 2), ((3 : ℚ) / 2, (1 : ℚ)),
      ((1 : ℚ), (3 : ℚ) / 2), ((1 : ℚ) / 2, (1 : ℚ)), ((1 : ℚ), (1 : ℚ) / 2)] (10 : ℚ)
      = some [((1 : ℚ), (1 : ℚ) / 2), ((1 : ℚ), (1 : ℚ) / 2)] := by
    rw [rdp, rdpFuel]
    rw [if_neg (by norm_num)]
    simp only [hdists, hidx]
    rw [if_pos (by norm_num)]
    rfl
  rw [vectorize_image, vectorize_paths]
  rw [if_neg (by decide)]
  simp only [List.map_cons, List.map_nil]
  rw [hrdp]
  simp only [Option.pure_def, Option.bind_eq_bind, Option.some_bind]
  rw [show downsample [((1 : ℚ), (1 : ℚ) / 2), ((1 : ℚ), (1 : ℚ) / 2)] 2
      = [((1 : ℚ), (1 : ℚ) / 2)] by rw [downsample, if_neg (by decide)]; rfl]
  rfl

/-- **C9, amended.** With no downsampling (`downsample_step ≤ 1`) and
`min_path_points ≥ 2`, every path of the returned `VectorData` — and hence
every path persisted by `save_vector_data` — has at least 2 points. -/
theorem vectorize_paths_min_length (width height : Int) (contours : List (List Pt))
    (tol : ℚ) (minPts step : Nat) (v : VectorData)
    (hstep : step ≤ 1) (hmin : 2 ≤ minPts)
    (hv : vectorize_image width height contours tol minPts step = some v) :
    (∀ p ∈ v.paths, 2 ≤ p.length)
    ∧ (∀ p ∈ (save_vector_data v).paths, 2 ≤ p.length) := by
  have key : ∀ (cs : List (List Pt)) (ps : List (List Pt)),
      vectorize_paths tol minPts step cs = some ps → ∀ p ∈ ps, 2 ≤ p.length := by
    intro cs
    induction cs with
    | nil =>
      intro ps hps p hp
      rw [vectorize_paths] at hps
      injection hps with hps
      subst hps
      cases hp
    | cons c rest ih =>
      intro ps hps p hp
      rw [vectorize_paths] at hps
      by_cases hc : c.length < minPts
      · rw [if_pos hc] at hps
        exact ih ps hps p hp
      · rw [if_neg hc] at hps
        cases hrdp : rdp (c.map fun rc => (rc.2, rc.1)) tol with
        | none => rw [hrdp] at hps; cases hps
        | some s =>
          rw [hrdp] at hps
          cases htail : vectorize_paths tol minPts step rest with
          | none =>
            rw [htail] at hps
            simp only [Option.pure_def, Option.bind_eq_bind, Option.some_bind,
              Option.none_bind] at hps
            cases hps
          | some tail =>
            rw [htail] at hps
            simp only [Option.pure_def, Option.bind_eq_bind, Option.some_bind] at hps
            have hds : downsample s step = s := by
              rw [downsample, if_pos hstep]
            rw [hds] at hps
            by_cases hlen : s.length < minPts / 2
            · rw [if_pos hlen] at hps
              injection hps with hps
              subst hps
              exact ih tail htail p hp
            · rw [if_neg hlen] at hps
              injection hps with hps
              subst hps
              rcases hp with _ | hp
              · rw [rdp] at hrdp
                have hprops := rdpFuel_props _ _ _ _ hrdp
                refine hprops.2.1 ?_
                rw [List.length_map]
                omega
              · exact ih tail htail p (by assumption)
  rw [vectorize_image] at hv
  cases hps : vectorize_paths tol minPts step contours with
  | none => rw [hps] at hv; cases hv
  | some ps =>
    rw [hps] at hv
    simp only [Option.map_some', Option.some.injEq] at hv
    subst hv
    exact ⟨key contours ps hps, key contours ps hps⟩

/-- Witness for `vectorize_paths_min_length` on a single 3-point contour
with `min_path_points = 2`, no downsampling and zero tolerance. -/
theorem vectorize_paths_min_length_witness :
    2 ≤ ([((0 : ℚ), (0 : ℚ)), ((1 : ℚ), (0 : ℚ)), ((1 : ℚ), (1 : ℚ))] : List Pt).length := by
  have hv : vectorize_image 2 2 [[((0 : ℚ), (0 : ℚ)), ((0 : ℚ), (1 : ℚ)), ((1 : ℚ), (1 : ℚ))]]
      0 2 1 = some ⟨2, 2, [[((0 : ℚ), (0 : ℚ)), ((1 : ℚ), (0 : ℚ)), ((1 : ℚ), (1 : ℚ))]]⟩ := by
    rw [vectorize_image, vectorize_paths]
    rw [if_neg (by decide)]
    simp only [List.map_cons, List.map_nil]
    rw [show rdp [((0 : ℚ), (0 : ℚ)), ((1 : ℚ), (0 : ℚ)), ((1 : ℚ), (1 : ℚ))] 0
        = some [((0 : ℚ), (0 : ℚ)), ((1 : ℚ), (0 : ℚ)), ((1 : ℚ), (1 : ℚ))] by
      rw [rdp, rdpFuel, if_pos (Or.inr le_rfl)]]
    simp only [Option.pure_def, Option.bind_eq_bind, Option.some_bind]
    rw [show downsample [((0 : ℚ), (0 : ℚ)), ((1 : ℚ), (0 : ℚ)), ((1 : ℚ), (1 : ℚ))] 1
        = [((0 : ℚ), (0 : ℚ)), ((1 : ℚ), (0 : ℚ)), ((1 : ℚ), (1 : ℚ))] by
      rw [downsample, if_pos (by decide)]]
    rfl
  have h := vectorize_paths_min_length 2 2
    [[((0 : ℚ), (0 : ℚ)), ((0 : ℚ), (1 : ℚ)), ((1 : ℚ), (1 : ℚ))]] 0 2 1
    ⟨2, 2, [[((0 : ℚ), (0 : ℚ)), ((1 : ℚ), (0 : ℚ)), ((1 : ℚ), (1 : ℚ))]]⟩
    (by decide) (by decide) hv
  exact h.1 _ (by simp)

/-! ## Claims about the command emitter -/

/-- Characterization of `vector_data_to_gcode` on a single path all of
whose physical-unit points survive min-move filtering: the emission
succeeds, `total_draw_mm` is the sum of consecutive point distances, and
`total_travel_mm` is the approach leg from the origin *plus* the final
return-to-origin leg added at gcode.py:196-197. -/
theorem vector_single_path_emit (v : VectorData) (settings : GCodeSettings) (path : List Pt)
    (hpaths : v.paths = [path]) (hlen : 2 ≤ path.length)
    (hfeed : 0 < settings.feed_rate) (hw : 0 < v.width) (hh : 0 < v.height)
    (hsurvive : filter_min_move (mm_points v.height settings.pixel_size_mm path)
        settings.min_move_mm = mm_points v.height settings.pixel_size_mm path) :
    ∃ cmds stats, vector_data_to_gcode v settings = Except.ok (cmds, stats)
      ∧ stats.total_draw_mm = path_length (mm_points v.height settings.pixel_size_mm path)
      ∧ stats.total_travel_mm
          = pyDist (0, 0) (mm_points v.height settings.pixel_size_mm path).headI
            + pyDist ((mm_points v.height settings.pixel_size_mm path).getLastD
                (mm_points v.height settings.pixel_size_mm path).headI) (0, 0)
      ∧ stats.path_count = 1
      ∧ stats.line_count = (mm_points v.height settings.pixel_size_mm path).length := by
  have hmmlen : (mm_points v.height settings.pixel_size_mm path).length = path.length := by
    rw [mm_points, List.length_map]
  have hemit : emit_path settings v.height ⟨[], 0, 0, 0, 0, none⟩ path
      = ⟨[] ++ [Cmd.rapidMove (mm_points v.height settings.pixel_size_mm path).headI.1
            (mm_points v.height settings.pixel_size_mm path).headI.2,
          Cmd.setFeed settings.feed_rate, Cmd.penDown]
          ++ (if 0 < settings.pen_dwell_seconds then
              [Cmd.dwell settings.pen_dwell_seconds] else [])
          ++ ((mm_points v.height settings.pixel_size_mm path).map fun p => Cmd.lineTo p.1 p.2)
          ++ [Cmd.penUp]
          ++ (if 0 < settings.pen_dwell_seconds then
              [Cmd.dwell settings.pen_dwell_seconds] else []),
        0 + path_length (mm_points v.height settings.pixel_size_mm path),
        0 + pyDist (0, 0) (mm_points v.height settings.pixel_size_mm path).headI,
        0 + (mm_points v.height settings.pixel_size_mm path).length, 0 + 1,
        some ((mm_points v.height settings.pixel_size_mm path).getLastD
          (mm_points v.height settings.pixel_size_mm path).headI)⟩ := by
    rw [emit_path, if_neg (by omega)]
    simp only [hsurvive]
    rw [if_neg (by omega)]
    rfl
  rw [vector_data_to_gcode]
  rw [if_neg (by omega)]
  rw [if_neg (by rw [hpaths]; simp)]
  rw [if_neg (by push_neg; omega)]
  rw [hpaths]
  simp only [List.foldl_cons, List.foldl_nil]
  rw [hemit]
  rw [if_neg (by simp)]
  refine ⟨_, _, rfl, ?_, ?_, ?_, ?_⟩
  · simp
  · simp
  · simp
  · simp

/-- **C3, counterexample.** For the single path `[(0,9),(3,5)]` on a 10×10
raster with `pixel_size = 1` and `min_move = 0`, the physical points are
`(0,0)` and `(3,4)`; the claim says `total_travel_mm` equals the distance
from the origin to the first point, i.e. `0`, but `vector_data_to_gcode`
also adds the final return-to-origin leg (gcode.py:196-197) and returns
`5`. -/
theorem travel_includes_return_leg :
    ((vector_data_to_gcode ⟨10, 10, [[((0 : ℚ), (9 : ℚ)), ((3 : ℚ), (5 : ℚ))]]⟩
        ⟨1, 100, 5, 0, false, 200, 3 / 2, 20, 1, 0, 1 / 10, 2, 0⟩).toOption.map
      fun r => r.2.total_travel_mm) = some 5
    ∧ pyDist (0, 0) ((0 : ℚ), (0 : ℚ)) = 0
    ∧ (5 : ℝ) ≠ 0 := by
  have hmm : mm_points 10 1 [((0 : ℚ), (9 : ℚ)), ((3 : ℚ), (5 : ℚ))]
      = [((0 : ℚ), (0 : ℚ)), ((3 : ℚ), (4 : ℚ))] := by
    rw [mm_points]
    norm_num
  have hzero : pyDist (0, 0) ((0 : ℚ), (0 : ℚ)) = 0 := by
    rw [pyDist]
    norm_num [sqDist, Real.sqrt_zero]
  have hfive : pyDist ((3 : ℚ), (4 : ℚ)) (0, 0) = 5 := by
    rw [pyDist]
    rw [show sqDist ((3 : ℚ), (4 : ℚ)) (0, 0) = 25 by rw [sqDist]; norm_num]
    rw [show ((25 : ℚ) : ℝ) = 5 ^ 2 by norm_num]
    exact Real.sqrt_sq (by norm_num)
  have hsurvive : filter_min_move (mm_points 10 1 [((0 : ℚ), (9 : ℚ)), ((3 : ℚ), (5 : ℚ))]) 0
      = mm_points 10 1 [((0 : ℚ), (9 : ℚ)), ((3 : ℚ), (5 : ℚ))] := by
    rw [hmm]
    simp only [filter_min_move]
    rw [if_pos le_rfl]
  obtain ⟨cmds, stats, hok, hdraw, htravel, hpc, hlc⟩ :=
    vector_single_path_emit ⟨10, 10, [[((0 : ℚ), (9 : ℚ)), ((3 : ℚ), (5 : ℚ))]]⟩
      ⟨1, 100, 5, 0, false, 200, 3 / 2, 20, 1, 0, 1 / 10, 2, 0⟩
      [((0 : ℚ), (9 : ℚ)), ((3 : ℚ), (5 : ℚ))] rfl (by decide) (by decide) (by decide)
      (by decide) hsurvive
  refine ⟨?_, hzero, by norm_num⟩
  rw [hok]
  simp only [Except.toOption, Option.map_some', Option.some.injEq]
  simp only [] at htravel
  rw [htravel, hmm]
  rw [show ([((0 : ℚ), (0 : ℚ)), ((3 : ℚ), (4 : ℚ))] : List Pt).headI
      = ((0 : ℚ), (0 : ℚ)) from rfl]
  rw [show ([((0 : ℚ), (0 : ℚ)), ((3 : ℚ), (4 : ℚ))] : List Pt).getLastD ((0 : ℚ), (0 : ℚ))
      = ((3 : ℚ), (4 : ℚ)) from rfl]
  rw [hzero, hfive]
  norm_num

/-- **C3, amended.** For a single path of ≥ 2 points all of which survive
min-move filtering (and valid feed rate and dimensions), `total_draw_mm` is
exactly the sum of consecutive Euclidean distances between the
physical-unit points, and `total_travel_mm` is the Euclidean distance from
the origin to the path's first physical-unit point *plus* the final
return-to-origin distance from its last physical-unit point. -/
theorem stats_draw_and_travel (v : VectorData) (settings : GCodeSettings) (path : List Pt)
    (hpaths : v.paths = [path]) (hlen : 2 ≤ path.length)
    (hfeed : 0 < settings.feed_rate) (hw : 0 < v.width) (hh : 0 < v.height)
    (hsurvive : filter_min_move (mm_points v.height settings.pixel_size_mm path)
        settings.min_move_mm = mm_points v.height settings.pixel_size_mm path) :
    ∃ cmds stats, vector_data_to_gcode v settings = Except.ok (cmds, stats)
      ∧ stats.total_draw_mm = path_length (mm_points v.height settings.pixel_size_mm path)
      ∧ stats.total_travel_mm
          = pyDist (0, 0) (mm_points v.height settings.pixel_size_mm path).headI
            + pyDist ((mm_points v.height settings.pixel_size_mm path).getLastD
                (mm_points v.height settings.pixel_size_mm path).headI) (0, 0) := by
  obtain ⟨cmds, stats, hok, hdraw, htravel, -, -⟩ :=
    vector_single_path_emit v settings path hpaths hlen hfeed hw hh hsurvive
  exact ⟨cmds, stats, hok, hdraw, htravel⟩

/-- Witness for `stats_draw_and_travel`: a degenerate two-point path whose
physical points coincide at the origin, so draw and travel are both zero. -/
theorem stats_draw_and_travel_witness :
    ((vector_data_to_gcode ⟨1, 1, [[((0 : ℚ), (0 : ℚ)), ((0 : ℚ), (0 : ℚ))]]⟩
        ⟨1, 100, 5, 0, false, 200, 3 / 2, 20, 1, 0, 1 / 10, 2, 0⟩).toOption.map
      fun r => (r.2.total_draw_mm, r.2.total_travel_mm)) = some (0, 0) := by
  have hmm : mm_points 1 1 [((0 : ℚ), (0 : ℚ)), ((0 : ℚ), (0 : ℚ))]
      = [((0 : ℚ), (0 : ℚ)), ((0 : ℚ), (0 : ℚ))] := by
    rw [mm_points]
    norm_num
  have hzero : pyDist ((0 : ℚ), (0 : ℚ)) ((0 : ℚ), (0 : ℚ)) = 0 := by
    rw [pyDist]
    norm_num [sqDist, Real.sqrt_zero]
  have hsurvive : filter_min_move (mm_points 1 1 [((0 : ℚ), (0 : ℚ)), ((0 : ℚ), (0 : ℚ))]) 0
      = mm_points 1 1 [((0 : ℚ), (0 : ℚ)), ((0 : ℚ), (0 : ℚ))] := by
    rw [hmm]
    simp only [filter_min_move]
    rw [if_pos le_rfl]
  obtain ⟨cmds, stats, hok, hdraw, htravel⟩ :=
    stats_draw_and_travel ⟨1, 1, [[((0 : ℚ), (0 : ℚ)), ((0 : ℚ), (0 : ℚ))]]⟩
      ⟨1, 100, 5, 0, false, 200, 3 / 2, 20, 1, 0, 1 / 10, 2, 0⟩
      [((0 : ℚ), (0 : ℚ)), ((0 : ℚ), (0 : ℚ))] rfl (by decide) (by decide) (by decide)
      (by decide) hsurvive
  rw [hok]
  simp only [Except.toOption, Option.map_some', Option.some.injEq]
  simp only [] at hdraw htravel
  rw [hdraw, htravel, hmm]
  rw [show ([((0 : ℚ), (0 : ℚ)), ((0 : ℚ), (0 : ℚ))] : List Pt).headI
      = ((0 : ℚ), (0 : ℚ)) from rfl]
  rw [show ([((0 : ℚ), (0 : ℚ)), ((0 : ℚ), (0 : ℚ))] : List Pt).getLastD ((0 : ℚ), (0 : ℚ))
      = ((0 : ℚ), (0 : ℚ)) from rfl]
  rw [show path_length [((0 : ℚ), (0 : ℚ)), ((0 : ℚ), (0 : ℚ))]
      = pyDist ((0 : ℚ), (0 : ℚ)) ((0 : ℚ), (0 : ℚ)) + 0 from rfl]
  rw [hzero]
  norm_num

/-- **C8.** A non-positive feed rate is rejected by `_validate_feed_rate`
before anything else happens in either emitter: both return the validation
error, and since the file write (gcode.py:131, gcode.py:208) lies on the
success path only, no file is created or written. -/
theorem feed_rate_validated_first (settings : GCodeSettings) (v : VectorData)
    (imageExists : Bool) (rest : GCodeSettings → Except String (List Cmd))
    (hfeed : settings.feed_rate ≤ 0) :
    vector_data_to_gcode v settings = Except.error "Feed rate must be a positive value."
    ∧ image_to_gcode settings imageExists rest
        = Except.error "Feed rate must be a positive value." := by
  constructor
  · rw [vector_data_to_gcode, if_pos hfeed]
  · rw [image_to_gcode, if_pos hfeed]

/-- Witness for `feed_rate_validated_first` at `feed_rate = 0`, a nonempty
vector and an arbitrary image pipeline. -/
theorem feed_rate_validated_first_witness :
    vector_data_to_gcode ⟨4, 4, [[((0 : ℚ), (0 : ℚ)), ((1 : ℚ), (1 : ℚ))]]⟩
        ⟨1 / 4, 0, 5, 0, false, 200, 3 / 2, 20, 1, 1 / 4, 1 / 10, 2, 0⟩
      = Except.error "Feed rate must be a positive value."
    ∧ image_to_gcode ⟨1 / 4, 0, 5, 0, false, 200, 3 / 2, 20, 1, 1 / 4, 1 / 10, 2, 0⟩ true
        (fun _ => Except.ok [])
      = Except.error "Feed rate must be a positive value." :=
  feed_rate_validated_first ⟨1 / 4, 0, 5, 0, false, 200, 3 / 2, 20, 1, 1 / 4, 1 / 10, 2, 0⟩
    ⟨4, 4, [[((0 : ℚ), (0 : ℚ)), ((1 : ℚ), (1 : ℚ))]]⟩ true (fun _ => Except.ok [])
    (by decide)

/-! ## Rounding and extremum lemmas for crop-and-scale -/

/-- Banker's rounding is within half a unit above. -/
theorem pyRound_le (q : ℚ) : (pyRound q : ℚ) ≤ q + 1 / 2 := by
  rw [pyRound]
  have h1 : (⌊q⌋ : ℚ) ≤ q := Int.floor_le q
  have h2 : q < ⌊q⌋ + 1 := Int.lt_floor_add_one q
  split_ifs with ha hb hc <;> push_cast <;> linarith

/-- Banker's rounding is within half a unit below. -/
theorem le_pyRound (q : ℚ) : q - 1 / 2 ≤ (pyRound q : ℚ) := by
  rw [pyRound]
  have h1 : (⌊q⌋ : ℚ) ≤ q := Int.floor_le q
  have h2 : q < ⌊q⌋ + 1 := Int.lt_floor_add_one q
  split_ifs with ha hb hc <;> push_cast <;> linarith

/-- Rounding an integer is the identity. -/
theorem pyRound_intCast (n : Int) : pyRound (n : ℚ) = n := by
  rw [pyRound, Int.floor_intCast]
  rw [if_pos (by norm_num)]

theorem foldl_min_map (g : ℚ → ℚ) (hg : ∀ a b, g (min a b) = min (g a) (g b)) :
    ∀ (xs : List ℚ) (x : ℚ), (xs.map g).foldl min (g x) = g (xs.foldl min x) := by
  intro xs
  induction xs with
  | nil => intro x; rfl
  | cons y ys ih =>
    intro x
    simp only [List.map_cons, List.foldl_cons]
    rw [← hg, ih]

theorem foldl_max_map (g : ℚ → ℚ) (hg : ∀ a b, g (max a b) = max (g a) (g b)) :
    ∀ (xs : List ℚ) (x : ℚ), (xs.map g).foldl max (g x) = g (xs.foldl max x) := by
  intro xs
  induction xs with
  | nil => intro x; rfl
  | cons y ys ih =>
    intro x
    simp only [List.map_cons, List.foldl_cons]
    rw [← hg, ih]

/-- The minimum commutes with a monotone affine map (positive scale). -/
theorem listMinQ_map_affine (c s : ℚ) (hs : 0 < s) (l : List ℚ) (hl : l ≠ []) :
    listMinQ (l.map fun x => (x - c) * s) = (listMinQ l - c) * s := by
  cases l with
  | nil => exact absurd rfl hl
  | cons x xs =>
    simp only [List.map_cons, listMinQ]
    exact foldl_min_map (fun x => (x - c) * s)
      (fun a b => by
        show (min a b - c) * s = min ((a - c) * s) ((b - c) * s)
        rw [← min_sub_sub_right, min_mul_of_nonneg _ _ (le_of_lt hs)]) xs x

/-- The maximum commutes with a monotone affine map (positive scale). -/
theorem listMaxQ_map_affine (c s : ℚ) (hs : 0 < s) (l : List ℚ) (hl : l ≠ []) :
    listMaxQ (l.map fun x => (x - c) * s) = (listMaxQ l - c) * s := by
  cases l with
  | nil => exact absurd rfl hl
  | cons x xs =>
    simp only [List.map_cons, listMaxQ]
    exact foldl_max_map (fun x => (x - c) * s)
      (fun a b => by
        show (max a b - c) * s = max ((a - c) * s) ((b - c) * s)
        rw [← max_sub_sub_right, max_mul_of_nonneg _ _ (le_of_lt hs)]) xs x

/-- Re-cropping a rounded extent moves the rounded integer dimension by at
most one unit: with `W = max 1 (round a)` and a content extent
`min maxr W` for some `maxr ≥ a`, rounding again stays within 1 of `W`. -/
theorem width_round_stable (a maxr : ℚ) (ha : a ≤ maxr) :
    |max 1 (pyRound (min maxr ((max 1 (pyRound a) : Int) : ℚ))) - max 1 (pyRound a)| ≤ 1 := by
  set W : Int := max 1 (pyRound a) with hW
  have hW1 : (1 : Int) ≤ W := le_max_left _ _
  by_cases hcase : (W : ℚ) ≤ maxr
  · rw [min_eq_right hcase, pyRound_intCast, max_eq_right hW1]
    simp
  · push_neg at hcase
    rw [min_eq_left (le_of_lt hcase)]
    have hup : (pyRound maxr : ℚ) ≤ maxr + 1 / 2 := pyRound_le maxr
    have hlow : maxr - 1 / 2 ≤ (pyRound maxr : ℚ) := le_pyRound maxr
    have hub : pyRound maxr ≤ W := by
      have h2 : (pyRound maxr : ℚ) < ((W + 1 : Int) : ℚ) := by push_cast; linarith
      have h3 : pyRound maxr < W + 1 := by exact_mod_cast h2
      omega
    by_cases hcase2 : 1 ≤ pyRound a
    · have hWa : W = pyRound a := max_eq_right hcase2
      have haup : (pyRound a : ℚ) ≤ a + 1 / 2 := pyRound_le a
      have hlb : W - 1 ≤ pyRound maxr := by
        have h1 : ((W - 1 : Int) : ℚ) ≤ (pyRound maxr : ℚ) := by
          rw [hWa]
          push_cast
          linarith
        exact_mod_cast h1
      rcases le_or_lt (pyRound maxr) 1 with h | h
      · rw [max_eq_left h, abs_le]
        constructor <;> omega
      · rw [max_eq_right (le_of_lt h), abs_le]
        constructor <;> omega
    · push_neg at hcase2
      have hW1' : W = 1 := max_eq_left (by omega)
      have hub1 : pyRound maxr ≤ 1 := by rw [← hW1']; exact hub
      rw [max_eq_left hub1, hW1']
      simp

/-- With `padding_ratio = 0` the pad vanishes. -/
theorem vdPad_zero (d : VectorData) : vdPad d 0 = 0 := by
  rw [vdPad]
  simp

theorem cropMinX_zero (d : VectorData) : cropMinX d 0 = max (vdMinX d) 0 := by
  rw [cropMinX, vdPad_zero, sub_zero]

theorem cropMinY_zero (d : VectorData) : cropMinY d 0 = max (vdMinY d) 0 := by
  rw [cropMinY, vdPad_zero, sub_zero]

theorem cropMaxX_zero (d : VectorData) : cropMaxX d 0 = min (vdMaxX d) (d.width : ℚ) := by
  rw [cropMaxX, vdPad_zero, add_zero]

theorem cropMaxY_zero (d : VectorData) : cropMaxY d 0 = min (vdMaxY d) (d.height : ℚ) := by
  rw [cropMaxY, vdPad_zero, add_zero]

/-- Core of the idempotence claim: if `crop_and_scale` (with no padding and
a fixed positive target) ran its main branch twice, the second pass leaves
every point unchanged (its crop offset is 0 and its scale is exactly 1) and
moves each rounded dimension by at most one unit. -/
theorem crop_scale_core_twice (d r r2 : VectorData) (T : Int) (hT : 0 < T)
    (h1 : crop_scale_core d 0 T = some r) (h2 : crop_scale_core r 0 T = some r2) :
    r2.paths = r.paths ∧ |r2.width - r.width| ≤ 1 ∧ |r2.height - r.height| ≤ 1 := by
  rw [crop_scale_core] at h1
  by_cases hp : d.paths = []
  · rw [if_pos hp] at h1; cases h1
  rw [if_neg hp] at h1
  by_cases hxy : vdXs d = [] ∨ vdYs d = []
  · rw [if_pos hxy] at h1; cases h1
  rw [if_neg hxy] at h1
  push_neg at hxy
  by_cases hcw : vdMaxX d - vdMinX d ≤ 0 ∨ vdMaxY d - vdMinY d ≤ 0
  · rw [if_pos hcw] at h1; cases h1
  rw [if_neg hcw] at h1
  by_cases hnwp : newWidth d 0 ≤ 0 ∨ newHeight d 0 ≤ 0
  · rw [if_pos hnwp] at h1; cases h1
  rw [if_neg hnwp] at h1
  push_neg at hnwp
  injection h1 with h1
  have htgt : cropTarget d T = T := by rw [cropTarget, if_pos (by omega)]
  have hmaxext : 0 < max (newWidth d 0) (newHeight d 0) := lt_max_of_lt_left hnwp.1
  have hscond : cropTarget d T ≠ 0 ∧ 0 < max (newWidth d 0) (newHeight d 0) :=
    ⟨by rw [htgt]; omega, hmaxext⟩
  have hs_eq : cropScale d 0 T = (T : ℚ) / max (newWidth d 0) (newHeight d 0) := by
    rw [cropScale, if_pos hscond, htgt]
  have hs_pos : 0 < cropScale d 0 T := by
    rw [hs_eq]
    exact div_pos (by exact_mod_cast hT) hmaxext
  have hD : max (newWidth d 0) (newHeight d 0) * cropScale d 0 T = (T : ℚ) := by
    rw [hs_eq]
    exact mul_div_cancel₀ _ (ne_of_gt hmaxext)
  have hrpaths : r.paths = d.paths.map fun path => path.map fun p =>
      ((p.1 - cropMinX d 0) * cropScale d 0 T, (p.2 - cropMinY d 0) * cropScale d 0 T) := by
    rw [← h1]
  have hrwidth : r.width = max 1 (pyRound (newWidth d 0 * cropScale d 0 T)) := by rw [← h1]
  have hrheight : r.height = max 1 (pyRound (newHeight d 0 * cropScale d 0 T)) := by rw [← h1]
  have hpts : vdPoints r = (vdPoints d).map fun p =>
      ((p.1 - cropMinX d 0) * cropScale d 0 T, (p.2 - cropMinY d 0) * cropScale d 0 T) := by
    rw [vdPoints, hrpaths, vdPoints]
    exact (List.map_flatten _ _).symm
  have hxs : vdXs r = (vdXs d).map fun x => (x - cropMinX d 0) * cropScale d 0 T := by
    rw [vdXs, hpts, List.map_map, vdXs, List.map_map]
    rfl
  have hys : vdYs r = (vdYs d).map fun y => (y - cropMinY d 0) * cropScale d 0 T := by
    rw [vdYs, hpts, List.map_map, vdYs, List.map_map]
    rfl
  have hminx : vdMinX r = (vdMinX d - cropMinX d 0) * cropScale d 0 T := by
    rw [vdMinX, hxs, listMinQ_map_affine _ _ hs_pos _ hxy.1, vdMinX]
  have hmaxx : vdMaxX r = (vdMaxX d - cropMinX d 0) * cropScale d 0 T := by
    rw [vdMaxX, hxs, listMaxQ_map_affine _ _ hs_pos _ hxy.1, vdMaxX]
  have hminy : vdMinY r = (vdMinY d - cropMinY d 0) * cropScale d 0 T := by
    rw [vdMinY, hys, listMinQ_map_affine _ _ hs_pos _ hxy.2, vdMinY]
  have hmaxy : vdMaxY r = (vdMaxY d - cropMinY d 0) * cropScale d 0 T := by
    rw [vdMaxY, hys, listMaxQ_map_affine _ _ hs_pos _ hxy.2, vdMaxY]
  have hminx2_le : vdMinX r ≤ 0 := by
    rw [hminx]
    apply mul_nonpos_of_nonpos_of_nonneg _ hs_pos.le
    rw [cropMinX_zero]
    exact sub_nonpos.mpr (le_max_left _ _)
  have hminy2_le : vdMinY r ≤ 0 := by
    rw [hminy]
    apply mul_nonpos_of_nonpos_of_nonneg _ hs_pos.le
    rw [cropMinY_zero]
    exact sub_nonpos.mpr (le_max_left _ _)
  have hcm2x : cropMinX r 0 = 0 := by
    rw [cropMinX_zero]
    exact max_eq_right hminx2_le
  have hcm2y : cropMinY r 0 = 0 := by
    rw [cropMinY_zero]
    exact max_eq_right hminy2_le
  have hnw2 : newWidth r 0 = min (vdMaxX r) (r.width : ℚ) := by
    rw [newWidth, cropMaxX_zero, hcm2x, sub_zero]
  have hnh2 : newHeight r 0 = min (vdMaxY r) (r.height : ℚ) := by
    rw [newHeight, cropMaxY_zero, hcm2y, sub_zero]
  have hmaxx_ge : newWidth d 0 * cropScale d 0 T ≤ vdMaxX r := by
    rw [hmaxx]
    apply mul_le_mul_of_nonneg_right _ hs_pos.le
    rw [newWidth, cropMaxX_zero]
    have := min_le_left (vdMaxX d) ((d.width : ℚ))
    linarith
  have hmaxy_ge : newHeight d 0 * cropScale d 0 T ≤ vdMaxY r := by
    rw [hmaxy]
    apply mul_le_mul_of_nonneg_right _ hs_pos.le
    rw [newHeight, cropMaxY_zero]
    have := min_le_left (vdMaxY d) ((d.height : ℚ))
    linarith
  have hroundle : ∀ q : ℚ, q ≤ (T : ℚ) → max 1 (pyRound q) ≤ T := by
    intro q hq
    have h3 : (pyRound q : ℚ) < ((T + 1 : Int) : ℚ) := by
      have := pyRound_le q
      push_cast
      linarith
    have h4 : pyRound q < T + 1 := by exact_mod_cast h3
    exact max_le (by omega) (by omega)
  have hnwsle : newWidth d 0 * cropScale d 0 T ≤ (T : ℚ) := by
    calc newWidth d 0 * cropScale d 0 T
        ≤ max (newWidth d 0) (newHeight d 0) * cropScale d 0 T :=
          mul_le_mul_of_nonneg_right (le_max_left _ _) hs_pos.le
      _ = (T : ℚ) := hD
  have hnhsle : newHeight d 0 * cropScale d 0 T ≤ (T : ℚ) := by
    calc newHeight d 0 * cropScale d 0 T
        ≤ max (newWidth d 0) (newHeight d 0) * cropScale d 0 T :=
          mul_le_mul_of_nonneg_right (le_max_right _ _) hs_pos.le
      _ = (T : ℚ) := hD
  have hmax2 : max (newWidth r 0) (newHeight r 0) = (T : ℚ) := by
    rcases max_choice (newWidth d 0) (newHeight d 0) with hch | hch
    · have hnwT : newWidth d 0 * cropScale d 0 T = (T : ℚ) := by rw [← hD, hch]
      have hW2T : r.width = T := by
        rw [hrwidth, hnwT, pyRound_intCast, max_eq_right (by omega)]
      have hnw2T : newWidth r 0 = (T : ℚ) := by
        rw [hnw2, hW2T]
        exact min_eq_right (by rw [← hnwT]; exact hmaxx_ge)
      have hh2le : newHeight r 0 ≤ (T : ℚ) := by
        rw [hnh2]
        have hstep : (r.height : ℚ) ≤ (T : ℚ) := by
          have := hroundle _ hnhsle
          rw [hrheight]
          exact_mod_cast this
        exact le_trans (min_le_right _ _) hstep
      rw [hnw2T]
      exact max_eq_left hh2le
    · have hnhT : newHeight d 0 * cropScale d 0 T = (T : ℚ) := by rw [← hD, hch]
      have hH2T : r.height = T := by
        rw [hrheight, hnhT, pyRound_intCast, max_eq_right (by omega)]
      have hnh2T : newHeight r 0 = (T : ℚ) := by
        rw [hnh2, hH2T]
        exact min_eq_right (by rw [← hnhT]; exact hmaxy_ge)
      have hw2le : newWidth r 0 ≤ (T : ℚ) := by
        rw [hnw2]
        have hstep : (r.width : ℚ) ≤ (T : ℚ) := by
          have := hroundle _ hnwsle
          rw [hrwidth]
          exact_mod_cast this
        exact le_trans (min_le_right _ _) hstep
      rw [hnh2T]
      exact max_eq_right hw2le
  have htgt2 : cropTarget r T = T := by rw [cropTarget, if_pos (by omega)]
  have hs2 : cropScale r 0 T = 1 := by
    rw [cropScale, if_pos ⟨by rw [htgt2]; omega, by rw [hmax2]; exact_mod_cast hT⟩,
      htgt2, hmax2]
    exact div_self (by exact_mod_cast ne_of_gt hT)
  rw [crop_scale_core] at h2
  by_cases hp2 : r.paths = []
  · rw [if_pos hp2] at h2; cases h2
  rw [if_neg hp2] at h2
  by_cases hxy2 : vdXs r = [] ∨ vdYs r = []
  · rw [if_pos hxy2] at h2; cases h2
  rw [if_neg hxy2] at h2
  by_cases hcw2 : vdMaxX r - vdMinX r ≤ 0 ∨ vdMaxY r - vdMinY r ≤ 0
  · rw [if_pos hcw2] at h2; cases h2
  rw [if_neg hcw2] at h2
  by_cases hnwp2 : newWidth r 0 ≤ 0 ∨ newHeight r 0 ≤ 0
  · rw [if_pos hnwp2] at h2; cases h2
  rw [if_neg hnwp2] at h2
  injection h2 with h2
  have hr2paths : r2.paths = r.paths.map fun path => path.map fun p =>
      ((p.1 - cropMinX r 0) * cropScale r 0 T, (p.2 - cropMinY r 0) * cropScale r 0 T) := by
    rw [← h2]
  have hr2width : r2.width = max 1 (pyRound (newWidth r 0 * cropScale r 0 T)) := by rw [← h2]
  have hr2height : r2.height = max 1 (pyRound (newHeight r 0 * cropScale r 0 T)) := by
    rw [← h2]
  refine ⟨?_, ?_, ?_⟩
  · rw [hr2paths, hcm2x, hcm2y, hs2]
    simp only [sub_zero, mul_one, Prod.mk.eta, List.map_id']
  · rw [hr2width, hs2, mul_one, hnw2, hrwidth]
    exact width_round_stable _ _ hmaxx_ge
  · rw [hr2height, hs2, mul_one, hnh2, hrheight]
    exact width_round_stable _ _ hmaxy_ge

/-- **C6.** Applying `crop_and_scale_vector_data` twice with
`padding_ratio = 0` and the same positive `target_dimension` is idempotent
up to rounding: the two results have *identical* point coordinates (so they
certainly differ by at most 1 unit), and integer width and height that
differ by at most 1. -/
theorem crop_and_scale_idempotent (d : VectorData) (T : Int) (hT : 0 < T) :
    (crop_and_scale_vector_data (crop_and_scale_vector_data d 0 T) 0 T).paths
      = (crop_and_scale_vector_data d 0 T).paths
    ∧ |(crop_and_scale_vector_data (crop_and_scale_vector_data d 0 T) 0 T).width
        - (crop_and_scale_vector_data d 0 T).width| ≤ 1
    ∧ |(crop_and_scale_vector_data (crop_and_scale_vector_data d 0 T) 0 T).height
        - (crop_and_scale_vector_data d 0 T).height| ≤ 1 := by
  cases hc1 : crop_scale_core d 0 T with
  | none =>
    have hd1 : crop_and_scale_vector_data d 0 T = d := by
      rw [crop_and_scale_vector_data, hc1]
      rfl
    rw [hd1, hd1]
    simp
  | some r =>
    have hd1 : crop_and_scale_vector_data d 0 T = r := by
      rw [crop_and_scale_vector_data, hc1]
      rfl
    rw [hd1]
    cases hc2 : crop_scale_core r 0 T with
    | none =>
      have hd2 : crop_and_scale_vector_data r 0 T = r := by
        rw [crop_and_scale_vector_data, hc2]
        rfl
      rw [hd2]
      simp
    | some r2 =>
      have hd2 : crop_and_scale_vector_data r 0 T = r2 := by
        rw [crop_and_scale_vector_data, hc2]
        rfl
      rw [hd2]
      exact crop_scale_core_twice d r r2 T hT hc1 hc2

theorem crop_and_scale_idempotent_witness :
    (0 : Int) < 4
    ∧ ((crop_and_scale_vector_data
          (crop_and_scale_vector_data ⟨2, 2, [[((0 : ℚ), (0 : ℚ)), (2, 2)]]⟩ 0 4) 0 4).paths
        = (crop_and_scale_vector_data ⟨2, 2, [[((0 : ℚ), (0 : ℚ)), (2, 2)]]⟩ 0 4).paths
      ∧ |(crop_and_scale_vector_data
            (crop_and_scale_vector_data ⟨2, 2, [[((0 : ℚ), (0 : ℚ)), (2, 2)]]⟩ 0 4) 0 4).width
          - (crop_and_scale_vector_data ⟨2, 2, [[((0 : ℚ), (0 : ℚ)), (2, 2)]]⟩ 0 4).width| ≤ 1
      ∧ |(crop_and_scale_vector_data
            (crop_and_scale_vector_data ⟨2, 2, [[((0 : ℚ), (0 : ℚ)), (2, 2)]]⟩ 0 4) 0 4).height
          - (crop_and_scale_vector_data ⟨2, 2, [[((0 : ℚ), (0 : ℚ)), (2, 2)]]⟩ 0 4).height| ≤ 1) :=
  ⟨by decide, crop_and_scale_idempotent ⟨2, 2, [[((0 : ℚ), (0 : ℚ)), (2, 2)]]⟩ 4 (by decide)⟩
